import Mathlib

/-!
Shallow embedding of the reference-population engine of `src/aggregate/index.ts`
(an object-document mapping layer).  Documents are JS-like values; in-place
mutation is modelled by explicit state passing: every engine function takes the
list of documents and the call-scoped `PState` (fetch cache, active-path guard,
event log) and returns the updated documents and state.  The event log records
every store query, every cache insertion, and every warning/error printed, so
that counting and ordering properties of queries can be stated.  Store queries
are issued through an explicit model registry (a function from collection name
to model); a model's `find` returns `none` to model a rejected promise.
Promise rejections raised by the engine itself (strict-mode errors) are
modelled with `Except`.  The recursion of nested population is fuel-indexed;
the fuel bound is an artefact of the embedding (the TypeScript recursion is
bounded by the structure of the nested options).
-/

namespace Pop

/-- A JS value: undefined, null, booleans, integers, strings, ObjectId-like
objects carrying their hex string, arrays and plain objects (ordered fields). -/
inductive Val where
  | vundef : Val
  | vnull : Val
  | vbool : Bool → Val
  | vnum : Int → Val
  | vstr : String → Val
  | void : String → Val
  | varr : List Val → Val
  | vobj : List (String × Val) → Val
deriving Inhabited

/-- `value == null` of JS: undefined or null. -/
def isNullish : Val → Bool
  | .vundef => true
  | .vnull => true
  | _ => false

/-- JS truthiness (`if (value)`).  NaN is not modelled. -/
def truthy : Val → Bool
  | .vundef => false
  | .vnull => false
  | .vbool b => b
  | .vnum n => !(n = 0)
  | .vstr s => !(s = "")
  | .void _ => true
  | .varr _ => true
  | .vobj _ => true

mutual

/-- JS `String(v)` / `v.toString()` for the values of the model: strings pass
through, ObjectIds yield their hex string, arrays join their elements with
commas (null/undefined elements become empty), plain objects print as
`[object Object]`. -/
def jsToString : Val → String
  | .vundef => "undefined"
  | .vnull => "null"
  | .vbool b => if b then "true" else "false"
  | .vnum n => toString n
  | .vstr s => s
  | .void h => h
  | .varr xs => String.intercalate "," (jsArrParts xs)
  | .vobj _ => "[object Object]"

/-- The element strings of a JS array `toString` (nullish elements are empty). -/
def jsArrParts : List Val → List String
  | [] => []
  | e :: rest => (if isNullish e then "" else jsToString e) :: jsArrParts rest

end

/-- `stringifyId` of the source: `null`/`undefined` give `null`; a string
passes through; any object uses its `toString`; everything else falls back to
`String(id)`.  All non-nullish branches coincide with `jsToString`. -/
def stringifyId (id : Val) : Option String :=
  if isNullish id then none else some (jsToString id)

/-- Split a character list at every separator character (JS `String.split`:
`""` gives one empty piece, separators at the ends give empty pieces). -/
def splitChars (p : Char → Bool) : List Char → List (List Char)
  | [] => [[]]
  | c :: rest =>
    let r := splitChars p rest
    if p c then [] :: r
    else
      match r with
      | h :: t => (c :: h) :: t
      | [] => [[c]]

/-- JS `s.split(sep)` for a one-character separator, and `s.split(/\s+/)` up
to the empty pieces that both call sites discard. -/
def jsSplit (p : Char → Bool) (s : String) : List String :=
  (splitChars p s.data).map (fun cs => ⟨cs⟩)

/-- Whether a string starts with the given character (JS `startsWith` for a
one-character prefix). -/
def headIs (c : Char) (s : String) : Bool :=
  match s.data with
  | [] => false
  | c' :: _ => c' = c

/-- JS `s.slice(1)`. -/
def strTail (s : String) : String := ⟨s.data.drop 1⟩

/-- Association list lookup (JS object / Map access). -/
def lookupS {α : Type} : List (String × α) → String → Option α
  | [], _ => none
  | (k, v) :: rest, key => if k = key then some v else lookupS rest key

/-- Association list update: replace in place, append when absent
(JS object / Map assignment, insertion order preserved). -/
def setKeyS {α : Type} : List (String × α) → String → α → List (String × α)
  | [], key, v => [(key, v)]
  | (k, w) :: rest, key, v =>
    if k = key then (k, v) :: rest else (k, w) :: setKeyS rest key v

/-- Association list deletion (`Map.delete`): removes the entry when present. -/
def eraseKeyS {α : Type} : List (String × α) → String → List (String × α)
  | [], _ => []
  | (k, w) :: rest, key => if k = key then rest else (k, w) :: eraseKeyS rest key

def hasKeyS {α : Type} (l : List (String × α)) (key : String) : Bool :=
  (lookupS l key).isSome

/-- Direct property read on a value (no dot path). -/
def getField (v : Val) (key : String) : Val :=
  match v with
  | .vobj fs => (lookupS fs key).getD .vundef
  | .varr xs =>
    match key.toNat? with
    | some n => xs.getD n .vundef
    | none => .vundef
  | _ => (.vundef)

/-- `getNestedValue` of the source: walk a dot path; at every step a `_doc`
field of a document wrapper is unwrapped first; a missing or non-object
intermediate yields `undefined`. -/
def getNestedParts : Val → List String → Val
  | v, [] => v
  | v, part :: rest =>
    if isNullish v then .vundef
    else
      let v := match v with
        | .vobj fs => if hasKeyS fs "_doc" then (lookupS fs "_doc").getD .vundef else .vobj fs
        | other => other
      getNestedParts (getField v part) rest

def getNestedValue (v : Val) (path : String) : Val :=
  getNestedParts v (jsSplit (fun c => c = '.') path)

/-- The walk of `setNestedValue` below the top level: intermediate nullish
fields are created as empty objects, non-object intermediates stop the walk,
the final segment is assigned on an object target. -/
def setNestedParts : Val → List String → Val → Val
  | .vobj fs, [part], value =>
    if part = "" then .vobj fs else .vobj (setKeyS fs part value)
  | .vobj fs, part :: rest, value =>
    if part = "" then setNestedParts (.vobj fs) rest value
    else
      let next := (lookupS fs part).getD .vundef
      let next := if isNullish next then .vobj [] else next
      .vobj (setKeyS fs part (setNestedParts next rest value))
  | v, _, _ => v

/-- `setNestedValue` of the source: a `_doc` wrapper is unwrapped once at the
top, then the dot path is walked; a nullish or non-object root is a no-op. -/
def setNestedValue (v : Val) (path : String) (value : Val) : Val :=
  match v with
  | .vobj fs =>
    if hasKeyS fs "_doc" then
      .vobj (setKeyS fs "_doc" (setNestedParts ((lookupS fs "_doc").getD .vundef) (jsSplit (fun c => c = '.') path) value))
    else
      setNestedParts (.vobj fs) (jsSplit (fun c => c = '.') path) value
  | other => other

/-- JS `a || b` on `string | undefined | null` operands: a non-empty string
wins, otherwise the right operand. -/
def strOr (a b : Option String) : Option String :=
  match a with
  | some s => if s = "" then b else some s
  | none => b

/-- JS truthiness of a `string | undefined | null` value. -/
def strTruthy : Option String → Bool
  | some s => !(s = "")
  | none => false

/-- A document handed to `populate`: its value, and — when the object carries
a `$__` internal state with a `populated` map — that tracking map
(`path → original raw value`). -/
structure Doc where
  val : Val
  internalPopulated : Option (List (String × Val))
deriving Inhabited

/-- `select` of `PopulateOptions`: a space-separated string, a field list, or
a ready projection record (`true` = 1, `false` = 0). -/
inductive Select where
  | str : String → Select
  | list : List String → Select
  | proj : List (String × Bool) → Select

def Projection := List (String × Bool)

mutual

/-- The `paths` argument of `populate` and the `populate` field of
`PopulateOptions`: a path string, one options record, or a list of either. -/
inductive PopulateInput where
  | str : String → PopulateInput
  | opt : PopulateOpt → PopulateInput
  | list : List PopulateInput → PopulateInput

/-- `PopulateOptions` of the source (the unused query-options field `options`
is omitted; `match` is renamed `mtch`, a Lean keyword). -/
inductive PopulateOpt where
  | mk
    (path : String)
    (select : Option Select)
    (mtch : Option (List (String × Val)))
    (model : Option String)
    (pop : Option PopulateInput)
    (justOne : Option Bool)
    (localField : Option String)
    (foreignField : Option String)
    (transform : Option (Val → Val))
    (skip : Option Bool)
    (strictPopulate : Option Bool)
    (perDocumentLimit : Option Nat)

end

def PopulateOpt.path : PopulateOpt → String
  | .mk p _ _ _ _ _ _ _ _ _ _ _ => p

def PopulateOpt.select : PopulateOpt → Option Select
  | .mk _ s _ _ _ _ _ _ _ _ _ _ => s

def PopulateOpt.mtch : PopulateOpt → Option (List (String × Val))
  | .mk _ _ m _ _ _ _ _ _ _ _ _ => m

def PopulateOpt.model : PopulateOpt → Option String
  | .mk _ _ _ m _ _ _ _ _ _ _ _ => m

def PopulateOpt.pop : PopulateOpt → Option PopulateInput
  | .mk _ _ _ _ p _ _ _ _ _ _ _ => p

def PopulateOpt.justOne : PopulateOpt → Option Bool
  | .mk _ _ _ _ _ j _ _ _ _ _ _ => j

def PopulateOpt.localField : PopulateOpt → Option String
  | .mk _ _ _ _ _ _ l _ _ _ _ _ => l

def PopulateOpt.foreignField : PopulateOpt → Option String
  | .mk _ _ _ _ _ _ _ f _ _ _ _ => f

def PopulateOpt.transform : PopulateOpt → Option (Val → Val)
  | .mk _ _ _ _ _ _ _ _ t _ _ _ => t

def PopulateOpt.skip : PopulateOpt → Option Bool
  | .mk _ _ _ _ _ _ _ _ _ s _ _ => s

def PopulateOpt.strictPopulate : PopulateOpt → Option Bool
  | .mk _ _ _ _ _ _ _ _ _ _ s _ => s

def PopulateOpt.perDocumentLimit : PopulateOpt → Option Nat
  | .mk _ _ _ _ _ _ _ _ _ _ _ l => l

/-- `{ ...options, justOne := j }`. -/
def PopulateOpt.setJustOne : PopulateOpt → Option Bool → PopulateOpt
  | .mk p s m mo po _ l f t sk st pl, j => .mk p s m mo po j l f t sk st pl

/-- The options record `{ path: p }` built by path-string normalization. -/
def defaultOpt (p : String) : PopulateOpt :=
  .mk p none none none none none none none none none none none

/-- `SchemaTypeLike`: `_options?.ref`, `_ref`, and the element type of an
array path. -/
inductive SchemaTypeLike where
  | mk (optionsRef : Option String) (ref : Option String) (itemType : Option SchemaTypeLike)

def SchemaTypeLike.optionsRef : SchemaTypeLike → Option String
  | .mk o _ _ => o

def SchemaTypeLike.ref : SchemaTypeLike → Option String
  | .mk _ r _ => r

def SchemaTypeLike.itemType : SchemaTypeLike → Option SchemaTypeLike
  | .mk _ _ i => i

/-- The options of a registered schema virtual. -/
structure VirtualOpts where
  ref : Option String
  localField : Option String
  foreignField : Option String
  justOne : Option Bool

/-- `VirtualLike` of the source. -/
structure VirtualOpts' where
  options : Option VirtualOpts

/-- `SchemaLike`: path metadata and the registered virtuals, both by name. -/
structure SchemaLike where
  path : String → Option SchemaTypeLike
  virtuals : String → Option VirtualOpts'

/-- The filter of a store query: the `_id: { $in: … }` clause, the
`[foreignField]: { $in: … }` clause of a virtual query, and the merged
`match` conditions. -/
structure Filter where
  idIn : Option (List String)
  foreignIn : Option (String × List String)
  matchF : List (String × Val)

def emptyFilter : Filter := ⟨none, none, []⟩

/-- `ModelLike`: its `find` (returning `none` models a rejected promise), and
its schema. -/
structure ModelLike where
  find : Filter → Option Projection → Option (List Val)
  schema : Option SchemaLike

/-- The model registry (`getModel`). -/
def Registry := String → Option ModelLike

/-- One observable effect of a population call, in order of occurrence. -/
inductive Event where
  | equery : String → Filter → Option Projection → Event
  | einsert : String → String → Event
  | ewarn : String → Event
  | eerror : String → Event

/-- `PopulationContext` plus the event log: the fetch cache
(model name → stringified id → record), the circular-reference guard, and the
events so far. -/
structure PState where
  cache : List (String × List (String × Val))
  active : List String
  events : List Event

def initState : PState := ⟨[], [], []⟩

/-- The cache map of one model (`context.fetchedDocs.get(m) || new Map()`). -/
def cacheFor (st : PState) (m : String) : List (String × Val) :=
  (lookupS st.cache m).getD []

def setCache (st : PState) (m : String) (mc : List (String × Val)) : PState :=
  { st with cache := setKeyS st.cache m mc }

def cacheHas (st : PState) (m : String) (s : String) : Bool :=
  hasKeyS (cacheFor st m) s

/-- `ParsedPopulatePath` of the source. -/
structure ParsedPopulatePath where
  path : String
  modelName : Option String
  isArray : Bool
  isVirtual : Bool
  localField : String
  foreignField : Option String
  options : PopulateOpt

mutual

/-- `normalizePopulateOptions`: a string splits on whitespace (empty tokens
dropped) into bare-path records, a record stands alone, a list flattens
recursively. -/
def normalizePopulateOptions : PopulateInput → List PopulateOpt
  | .str s => ((jsSplit Char.isWhitespace s).filter (fun t => !(t = ""))).map defaultOpt
  | .opt o => [o]
  | .list xs => normalizeList xs

def normalizeList : List PopulateInput → List PopulateOpt
  | [] => []
  | x :: xs => normalizePopulateOptions x ++ normalizeList xs

end

/-- JS truthiness of the `populate` field (`PopulateOptions | PopulateOptions[]
| string`): only the empty string is falsy. -/
def inputTruthy : PopulateInput → Bool
  | .str s => !(s = "")
  | _ => true

/-- `parsePopulatePath`: explicit local+foreign fields force a virtual; else a
schema virtual with a foreign field; else the schema path's direct ref
(scalar, then array element); else unresolved. -/
def parsePopulatePath (path : String) (options : PopulateOpt) (schema : Option SchemaLike) :
    ParsedPopulatePath :=
  let result : ParsedPopulatePath :=
    { path := path
      modelName := strOr options.model none
      isArray := false
      isVirtual := false
      localField := (strOr options.localField (some path)).getD path
      foreignField := strOr options.foreignField none
      options := options }
  if strTruthy options.localField && strTruthy options.foreignField then
    { result with
        isVirtual := true
        localField := options.localField.getD ""
        foreignField := options.foreignField }
  else
    match schema with
    | none => result
    | some schema =>
      let fromPath : ParsedPopulatePath :=
        match schema.path path with
        | some schemaPath =>
          let ref := strOr schemaPath.optionsRef schemaPath.ref
          if strTruthy ref then
            { result with modelName := (strOr options.model ref) }
          else
            match schemaPath.itemType with
            | some itemType =>
              let itemRef := strOr itemType.optionsRef itemType.ref
              if strTruthy itemRef then
                { result with modelName := (strOr options.model itemRef), isArray := true }
              else result
            | none => result
        | none => result
      match schema.virtuals path with
      | some virt =>
        match virt.options with
        | some vopts =>
          if strTruthy vopts.foreignField then
            { result with
                isVirtual := true
                modelName := strOr options.model (strOr vopts.ref none)
                localField := (strOr vopts.localField (some "_id")).getD "_id"
                foreignField := vopts.foreignField
                options := options.setJustOne (match options.justOne with
                  | some j => some j
                  | none => vopts.justOne) }
          else fromPath
        | none => fromPath
      | none => fromPath

/-- `parseSelectToProjection` of the source. -/
def parseSelectToProjection : Option Select → Option Projection
  | none => none
  | some (.str s) =>
    if s = "" then none
    else some ((jsSplit Char.isWhitespace s).foldl (fun pr f =>
      if f = "" then pr
      else if headIs '-' f then setKeyS pr (strTail f) false
      else if headIs '+' f then setKeyS pr (strTail f) true
      else setKeyS pr f true) [])
  | some (.list xs) =>
    some (xs.foldl (fun pr f =>
      if headIs '-' f then setKeyS pr (strTail f) false
      else setKeyS pr f true) [])
  | some (.proj p) => some p

/-- `fetchDocuments`: resolve the model (strict mode throws when absent,
lenient returns no records), build the filter from the id list, the custom
filter and the match conditions, log the query, and run `find`; a rejected
find is caught, logged, and yields no records. -/
def fetchDocuments (reg : Registry) (m : String) (ids : Option (List String))
    (options : PopulateOpt) (customFilter : Option Filter) (st : PState) :
    Except String (List Val) × PState :=
  match reg m with
  | none =>
    if options.strictPopulate = some true then
      (.error ("Model \"" ++ m ++ "\" not found for population"), st)
    else
      (.ok [], st)
  | some model =>
    let filter := customFilter.getD emptyFilter
    let filter := match ids with
      | some l => { filter with idIn := some l }
      | none => filter
    let filter := match options.mtch, customFilter with
      | some mf, none => { filter with matchF := mf }
      | _, _ => filter
    let projection := parseSelectToProjection options.select
    let st := { st with events := st.events ++ [.equery m filter projection] }
    match model.find filter projection with
    | some results => (.ok results, st)
    | none =>
      (.ok [], { st with events := st.events ++ [.eerror ("Error populating from model \"" ++ m ++ "\"")] })

/-- The value cast of `populateRef`: an array-cardinality value yields its
elements, anything else no ids. -/
def toArr : Val → List Val
  | .varr xs => xs
  | _ => []

/-- The raw ids one document contributes to a ref path: `none` when the value
at the path is nullish (the document is skipped), otherwise the scalar value
or the array elements. -/
def refIdsOf (pp : ParsedPopulatePath) (doc : Doc) : Option (List Val) :=
  let value := getNestedValue doc.val pp.path
  if isNullish value then none
  else some (if pp.isArray then toArr value else [value])

/-- Append to an insertion-ordered set (JS `Set.add`). -/
def addUnique (l : List String) (s : String) : List String :=
  if s ∈ l then l else l ++ [s]

/-- `idsToFetch` of `populateRef`: the distinct stringified ids across all
documents, in first-seen order. -/
def idsToFetchOf (docs : List Doc) (pp : ParsedPopulatePath) : List String :=
  docs.foldl (fun acc d =>
    match refIdsOf pp d with
    | none => acc
    | some ids => (ids.filterMap stringifyId).foldl addUnique acc) []

/-- The cache insertion loop of `populateRef`: every fetched record is keyed
by its own stringified `_id` (a missing or empty key is skipped), and each
insertion is logged. -/
def insertFetched (m : String) (fetched : List Val) (st : PState) : PState :=
  fetched.foldl (fun st fd =>
    match stringifyId (getField fd "_id") with
    | some sid =>
      if sid = "" then st
      else
        { st with
            cache := setKeyS st.cache m (setKeyS (cacheFor st m) sid fd)
            events := st.events ++ [.einsert m sid] }
    | none => st) st

/-- The assignment step of `populateRef` for one document: look every raw id
up in the cache, apply `transform`, keep non-nullish results, assign a list or
the first-or-null record, and record the raw value in the tracking map. -/
def assignOneRef (pp : ParsedPopulatePath) (mc : List (String × Val)) (doc : Doc) : Doc :=
  match refIdsOf pp doc with
  | none => doc
  | some ids =>
    let populatedDocs := ids.foldl (fun acc id =>
      match stringifyId id with
      | some sid =>
        if sid = "" then acc
        else
          match lookupS mc sid with
          | some pd =>
            let pd := match pp.options.transform with
              | some f => if truthy pd then f pd else pd
              | none => pd
            if isNullish pd then acc else acc ++ [pd]
          | none => acc
      | none => acc) []
    let finalValue :=
      if pp.isArray || pp.options.justOne = some false then .varr populatedDocs
      else if pp.options.justOne = some true || !pp.isArray then populatedDocs.headD .vnull
      else .varr populatedDocs
    let newVal := setNestedValue doc.val pp.path finalValue
    let newTracked := match doc.internalPopulated with
      | some pm =>
        some (setKeyS pm pp.path
          (if ids.length = 1 && !pp.isArray then ids.headD .vundef else .varr ids))
      | none => none
    ⟨newVal, newTracked⟩

/-- `populateRef`: collect the distinct stringified ids across all documents,
fetch the uncached subset in one batched query, insert the returned records
into the cache, and assign the resolved records back to every document. -/
def populateRef (reg : Registry) (docs : List Doc) (pp : ParsedPopulatePath) (st : PState) :
    Except String (List Doc) × PState :=
  if !strTruthy pp.modelName then (.ok docs, st)
  else
    let m := pp.modelName.getD ""
    let idsToFetch := idsToFetchOf docs pp
    if idsToFetch.isEmpty then (.ok docs, st)
    else
      let modelCache := cacheFor st m
      let st := setCache st m modelCache
      let uncachedIds := idsToFetch.filter (fun s => !(hasKeyS modelCache s))
      let fetchRes :=
        if uncachedIds.isEmpty then (Except.ok [], st)
        else fetchDocuments reg m (some uncachedIds) pp.options none st
      match fetchRes with
      | (.error e, st) => (.error e, st)
      | (.ok fetched, st) =>
        let st := insertFetched m fetched st
        let mc := cacheFor st m
        (.ok (docs.map (assignOneRef pp mc)), st)

/-- The stringified local-field value of one document
(`localValuesByDoc.get(doc)`). -/
def localOf (pp : ParsedPopulatePath) (doc : Doc) : Option String :=
  stringifyId (getNestedValue doc.val pp.localField)

/-- The distinct truthy local-field values across all documents. -/
def localValuesOf (docs : List Doc) (pp : ParsedPopulatePath) : List String :=
  docs.foldl (fun acc d =>
    match localOf pp d with
    | some s => if s = "" then acc else addUnique acc s
    | none => acc) []

/-- Append a record to its group (`docsByForeignValue`). -/
def addToGroup (g : List (String × List Val)) (k : String) (v : Val) : List (String × List Val) :=
  match lookupS g k with
  | some l => setKeyS g k (l ++ [v])
  | none => g ++ [(k, [v])]

/-- Group the fetched records by the stringified value of their foreign field;
records with a nullish or empty foreign value are dropped. -/
def groupByForeign (fetched : List Val) (ff : String) : List (String × List Val) :=
  fetched.foldl (fun g fd =>
    match stringifyId (getNestedValue fd ff) with
    | some sv => if sv = "" then g else addToGroup g sv fd
    | none => g) []

/-- The assignment step of `populateVirtual` for one document: look its local
value up in the grouping, apply `transform` and `perDocumentLimit`, and assign
the first match (when `justOne` resolves truthy) or the matched list; a
document with a falsy local value is left untouched. -/
def assignOneVirtual (pp : ParsedPopulatePath) (groups : List (String × List Val)) (doc : Doc) :
    Doc :=
  match localOf pp doc with
  | some lv =>
    if lv = "" then doc
    else
      let matched := (lookupS groups lv).getD []
      let matched := match pp.options.transform with
        | some f => matched.map f
        | none => matched
      let matched := match pp.options.perDocumentLimit with
        | some n => if !(n = 0) && matched.length > n then matched.take n else matched
        | none => matched
      let finalValue := if pp.options.justOne = some true then matched.headD .vnull
        else .varr matched
      ⟨setNestedValue doc.val pp.path finalValue, doc.internalPopulated⟩
  | none => doc

/-- `populateVirtual`: collect the distinct local-field values, issue one
query filtering the foreign field by that set (merged with `match`), group the
returned records by foreign value, and assign the matches back. -/
def populateVirtual (reg : Registry) (docs : List Doc) (pp : ParsedPopulatePath) (st : PState) :
    Except String (List Doc) × PState :=
  if !strTruthy pp.modelName || !strTruthy pp.foreignField then (.ok docs, st)
  else
    let m := pp.modelName.getD ""
    let ff := pp.foreignField.getD ""
    let localValues := localValuesOf docs pp
    if localValues.isEmpty then (.ok docs, st)
    else
      let queryFilter : Filter :=
        { idIn := none
          foreignIn := some (ff, localValues)
          matchF := pp.options.mtch.getD [] }
      match fetchDocuments reg m none pp.options (some queryFilter) st with
      | (.error e, st) => (.error e, st)
      | (.ok fetched, st) =>
        (.ok (docs.map (assignOneVirtual pp (groupByForeign fetched ff))), st)

/-- The sub-documents a populated value contributes to nested population. -/
def toSubVals : Val → List Val
  | .varr xs => xs
  | v => [v]

/-- The loop over the nested requests of one parent document, parameterized
by the engine re-entry `f` (one `populatePath` call at smaller fuel). -/
def runNestedOpts (f : List Doc → PopulateOpt → PState → Except String (List Doc) × PState) :
    List Doc → List PopulateOpt → PState → Except String (List Doc) × PState
  | docs, [], st => (.ok docs, st)
  | docs, o :: os, st =>
    match f docs o st with
    | (.error e, st) => (.error e, st)
    | (.ok docs', st) => runNestedOpts f docs' os st

/-- The nested-population loop over the parent documents: for each document
with a truthy populated value, run every nested request (`g`) on its
sub-documents and write the mutated sub-documents back into the field. -/
def runNestedDocs (g : List Doc → PState → Except String (List Doc) × PState) (path : String) :
    List Doc → PState → Except String (List Doc) × PState
  | [], st => (.ok [], st)
  | d :: ds, st =>
    let populatedValue := getNestedValue d.val path
    if truthy populatedValue then
      match g ((toSubVals populatedValue).map (fun v => ⟨v, none⟩)) st with
      | (.error e, st) => (.error e, st)
      | (.ok subDocs', st) =>
        let newVal := match populatedValue with
          | .varr _ => Val.varr (subDocs'.map Doc.val)
          | _ => (subDocs'.map Doc.val).headD .vundef
        let d' : Doc := ⟨setNestedValue d.val path newVal, d.internalPopulated⟩
        match runNestedDocs g path ds st with
        | (.error e, st) => (.error e, st)
        | (.ok ds', st) => (.ok (d' :: ds'), st)
    else
      match runNestedDocs g path ds st with
      | (.error e, st) => (.error e, st)
      | (.ok ds', st) => (.ok (d :: ds'), st)

/-- The `try` body of `populatePath` (everything between the circular guard
and the `finally`), parameterized by the engine re-entry `f` used for nested
population: path parsing, the strict/lenient unresolved check, dispatch to ref
or virtual population, and nested population of the newly assigned
sub-documents. -/
def populatePathBody (reg : Registry)
    (f : List Doc → PopulateOpt → Option SchemaLike → PState → Except String (List Doc) × PState)
    (docs : List Doc) (populateOpt : PopulateOpt) (schema : Option SchemaLike) (st : PState) :
    Except String (List Doc) × PState :=
  let path := populateOpt.path
  let parsedPath := parsePopulatePath path populateOpt schema
  if !strTruthy parsedPath.modelName && !parsedPath.isVirtual then
    if populateOpt.strictPopulate = some true then
      (.error ("Cannot populate path \"" ++ path ++ "\": no ref found in schema"), st)
    else
      (.ok docs, st)
  else
    match (if parsedPath.isVirtual then populateVirtual reg docs parsedPath st
           else populateRef reg docs parsedPath st) with
    | (.error e, st) => (.error e, st)
    | (.ok docs', st) =>
      match populateOpt.pop with
      | some nestedInput =>
        if inputTruthy nestedInput then
          let nestedOptions := normalizePopulateOptions nestedInput
          let nestedSchema :=
            if strTruthy parsedPath.modelName then
              match reg (parsedPath.modelName.getD "") with
              | some mdl => mdl.schema
              | none => none
            else none
          runNestedDocs
            (fun subDocs st => runNestedOpts (fun ds o s => f ds o nestedSchema s)
              subDocs nestedOptions st)
            path docs' st
        else (.ok docs', st)
      | none => (.ok docs', st)

/-- `populatePath`: the circular guard (warn and skip when the path is already
active), then the body, and — success or failure — removal of the path from
the active set.  The `Nat` is recursion fuel, an artefact of the embedding. -/
def populatePath (reg : Registry) : Nat → List Doc → PopulateOpt → Option SchemaLike → PState →
    Except String (List Doc) × PState
  | 0, _, _, _, st => (.error "recursion fuel exhausted", st)
  | fuel + 1, docs, populateOpt, schema, st =>
    let path := populateOpt.path
    if path ∈ st.active then
      (.ok docs, { st with events := st.events ++ [.ewarn ("Circular population detected for path: " ++ path)] })
    else
      match populatePathBody reg (populatePath reg fuel) docs populateOpt schema
          { st with active := path :: st.active } with
      | (res, st) => (res, { st with active := st.active.erase path })

/-- The top-level loop of `populate` over the normalized requests: a request
whose `skip` is exactly `true` is passed over. -/
def processPaths (reg : Registry) (fuel : Nat) : List Doc → List PopulateOpt →
    Option SchemaLike → PState → Except String (List Doc) × PState
  | docs, [], _, st => (.ok docs, st)
  | docs, o :: os, schema, st =>
    if o.skip = some true then processPaths reg fuel docs os schema st
    else
      match populatePath reg fuel docs o schema st with
      | (.error e, st) => (.error e, st)
      | (.ok docs', st) => processPaths reg fuel docs' os schema st

/-- `populate`: empty input and an empty normalized request list are no-ops;
otherwise a fresh population context is created and every request is resolved
in order. -/
def populate (reg : Registry) (fuel : Nat) (docs : List Doc) (paths : PopulateInput)
    (schema : Option SchemaLike) : Except String (List Doc) × PState :=
  if docs.isEmpty then (.ok docs, initState)
  else
    let populateOptions := normalizePopulateOptions paths
    if populateOptions.isEmpty then (.ok docs, initState)
    else processPaths reg fuel docs populateOptions schema initState

/-- `depopulate`: restore the tracked original raw value of one path (or of
all paths) and drop the tracking entries. -/
def depopulate (docs : List Doc) (path : Option String) : List Doc :=
  docs.map (fun doc =>
    match doc.internalPopulated with
    | some pm =>
      match path with
      | some p =>
        match lookupS pm p with
        | some originalId => ⟨setNestedValue doc.val p originalId, some (eraseKeyS pm p)⟩
        | none => doc
      | none =>
        ⟨pm.foldl (fun v kv => setNestedValue v kv.1 kv.2) doc.val, some []⟩
    | none => doc)

def isQueryEvent : Event → Bool
  | .equery _ _ _ => true
  | _ => false

def isWarnEvent : Event → Bool
  | .ewarn _ => true
  | _ => false

def isInsertEvent : Event → Bool
  | .einsert _ _ => true
  | _ => false

def isErrorEvent : Event → Bool
  | .eerror _ => true
  | _ => false

/-- A set of cache keys, as a predicate on (model name, stringified id). -/
def CacheKeys := String → String → Bool

def addKey (k : CacheKeys) (m s : String) : CacheKeys :=
  fun m' s' => k m' s' || (m' == m && s' == s)

/-- How one logged event changes the set of cached keys. -/
def applyEvK (k : CacheKeys) : Event → CacheKeys
  | .einsert m s => addKey k m s
  | _ => k

/-- Along this event list, every id-batched query requests only ids that are
not cached at the moment the query is issued (`k` is the cache-key set at the
start of the list). -/
def NoStaleK (k : CacheKeys) : List Event → Prop
  | [] => True
  | e :: Δ =>
    (∀ m f pr ids s, e = Event.equery m f pr → f.idIn = some ids → s ∈ ids → k m s = false) ∧
    NoStaleK (applyEvK k e) Δ

/-- The state evolution invariant of a population step: events are only
appended, the cached keys after are exactly the keys before plus the logged
insertions, and no appended id-batched query requests an id cached at its
emission. -/
def Evolves (st st' : PState) : Prop :=
  ∃ Δ, st'.events = st.events ++ Δ ∧
    (∀ m s, cacheHas st' m s = true ↔ (cacheHas st m s = true ∨ Event.einsert m s ∈ Δ)) ∧
    NoStaleK (cacheHas st) Δ

/-- One engine step evolves the state and leaves the active-path set as it
found it. -/
def StepOK (st st' : PState) : Prop :=
  Evolves st st' ∧ st'.active = st.active

/-- The filter `fetchDocuments` builds from its id list, custom filter and
match conditions. -/
def fdFilter (ids : Option (List String)) (options : PopulateOpt) (customFilter : Option Filter) :
    Filter :=
  let filter := customFilter.getD emptyFilter
  let filter := match ids with
    | some l => { filter with idIn := some l }
    | none => filter
  match options.mtch, customFilter with
  | some mf, none => { filter with matchF := mf }
  | _, _ => filter

/-- Whether an event is an id-batched query on model `m` whose id list
contains `s`. -/
def requestsId (m s : String) : Event → Bool
  | .equery m' f _ =>
    m' = m && (match f.idIn with
      | some ids => ids.contains s
      | none => false)
  | _ => false

/-- The top-level skip check of `populate`. -/
def notSkipped (o : PopulateOpt) : Bool := !(o.skip = some true)

/-! ### Concrete fixtures used by witnesses and counterexamples -/

def exAuthorRec : Val := .vobj [("_id", .vstr "A"), ("name", .vstr "Ann")]

def exReg : Registry := fun n =>
  if n = "Author" then some { find := fun _ _ => some [exAuthorRec], schema := none } else none

def exSchema : SchemaLike :=
  { path := fun p => if p = "authorId" then some (.mk (some "Author") none none) else none
    virtuals := fun _ => none }

def exDoc : Doc := ⟨.vobj [("_id", .vnum 1), ("authorId", .vstr "A")], some []⟩

/-- A registry with no models at all. -/
def exRegNone : Registry := fun _ => none

/-- A registry whose only model rejects every query. -/
def exRegReject : Registry := fun n =>
  if n = "Author" then some { find := fun _ _ => none, schema := none } else none

def exTagReg : Registry := fun n =>
  if n = "Tag" then
    some { find := fun _ _ => some [.vobj [("_id", .vstr "T1")], .vobj [("_id", .vstr "T2")]],
           schema := none }
  else none

def exTagSchema : SchemaLike :=
  { path := fun p => if p = "tags" then some (.mk none none (some (.mk (some "Tag") none none))) else none
    virtuals := fun _ => none }

def exTagDoc : Doc := ⟨.vobj [("tags", .varr [.vstr "T1", .vstr "T2"])], none⟩

def exTagOpt : PopulateOpt :=
  .mk "tags" none none none none (some true) none none none none none none

/-- A registry whose model returns no records for any query. -/
def exMReg : Registry := fun n =>
  if n = "M" then some { find := fun _ _ => some [], schema := none } else none

def exABSchema : SchemaLike :=
  { path := fun p => if p = "a" || p = "b" then some (.mk (some "M") none none) else none
    virtuals := fun _ => none }

def exABDoc : Doc := ⟨.vobj [("a", .vstr "X"), ("b", .vstr "X")], none⟩

/-- Both paths reference the Author collection. -/
def exAB2Schema : SchemaLike :=
  { path := fun p => if p = "a" || p = "b" then some (.mk (some "Author") none none) else none
    virtuals := fun _ => none }

def exAB2Doc : Doc := ⟨.vobj [("a", .vstr "A"), ("b", .vstr "Y")], none⟩

def exCASchema : SchemaLike :=
  { path := fun p => if p = "b" then some (.mk (some "MB") none none) else none
    virtuals := fun _ => none }

def exCBSchema : SchemaLike :=
  { path := fun p => if p = "a" then some (.mk (some "MA") none none) else none
    virtuals := fun _ => none }

def exCReg : Registry := fun n =>
  if n = "MA" then
    some { find := fun _ _ => some [.vobj [("_id", .vstr "A1"), ("b", .vstr "B1")]],
           schema := some exCASchema }
  else if n = "MB" then
    some { find := fun _ _ => some [.vobj [("_id", .vstr "B1"), ("a", .vstr "A1")]],
           schema := some exCBSchema }
  else none

def exCRootSchema : SchemaLike :=
  { path := fun p => if p = "a" then some (.mk (some "MA") none none) else none
    virtuals := fun _ => none }

/-- `a` nested-populates `b`, which nested-populates `a` again. -/
def exCOpt : PopulateOpt :=
  .mk "a" none none none
    (some (.opt (.mk "b" none none none (some (.opt (defaultOpt "a")))
      none none none none none none none)))
    none none none none none none none

def exCDoc : Doc := ⟨.vobj [("a", .vstr "A1")], none⟩

/-- `a` carries a nested request for `b` whose `skip` is `true`. -/
def exNOpt : PopulateOpt :=
  .mk "a" none none none
    (some (.opt (.mk "b" none none none none none none none none (some true) none none)))
    none none none none none none none

def exVReg : Registry := fun n =>
  if n = "Book" then
    some { find := fun _ _ => some [.vobj [("_id", .vnum 1), ("authorId", .vstr "A")],
             .vobj [("_id", .vnum 2), ("authorId", .vstr "A")]],
           schema := none }
  else none

def exVOpt : PopulateOpt :=
  .mk "books" none none (some "Book") none none (some "_id") (some "authorId") none none none none

def exVDoc : Doc := ⟨.vobj [("_id", .vstr "A")], none⟩

/-- A request for an unresolvable path with `strictPopulate: true`. -/
def exStrictOpt : PopulateOpt :=
  .mk "nope" none none none none none none none none none (some true) none


/-! ### Association-list and cache lemmas -/

theorem lookupS_setKeyS_self {α : Type} (l : List (String × α)) (k : String) (v : α) :
    lookupS (setKeyS l k v) k = some v := by
  induction l with
  | nil => simp [setKeyS, lookupS]
  | cons hd tl ih =>
    by_cases h : hd.1 = k
    · simp [setKeyS, lookupS, h]
    · simp [setKeyS, lookupS, h, ih]

theorem lookupS_setKeyS_ne {α : Type} (l : List (String × α)) (k k' : String) (v : α)
    (h : ¬ k = k') : lookupS (setKeyS l k v) k' = lookupS l k' := by
  induction l with
  | nil => simp [setKeyS, lookupS, h]
  | cons hd tl ih =>
    by_cases hk : hd.1 = k
    · simp [setKeyS, lookupS, hk, h]
    · simp [setKeyS, lookupS, hk, ih]

theorem setKeyS_setKeyS_cancel {α : Type} (l : List (String × α)) (k : String) (v w : α)
    (h : lookupS l k = some w) : setKeyS (setKeyS l k v) k w = l := by
  induction l with
  | nil => simp [lookupS] at h
  | cons hd tl ih =>
    obtain ⟨k₀, v₀⟩ := hd
    by_cases hk : k₀ = k
    · subst hk
      simp only [lookupS, if_true, eq_self_iff_true, Option.some.injEq] at h
      subst h
      simp [setKeyS]
    · simp only [lookupS, if_neg hk] at h
      simp [setKeyS, hk, ih h]

theorem eraseKeyS_setKeyS_of_none {α : Type} (l : List (String × α)) (k : String) (v : α)
    (h : lookupS l k = none) : eraseKeyS (setKeyS l k v) k = l := by
  induction l with
  | nil => simp [setKeyS, eraseKeyS]
  | cons hd tl ih =>
    obtain ⟨k₀, v₀⟩ := hd
    by_cases hk : k₀ = k
    · simp [lookupS, hk] at h
    · simp only [lookupS] at h
      rw [if_neg hk] at h
      simp only [setKeyS]
      rw [if_neg hk]
      simp only [eraseKeyS]
      rw [if_neg hk]
      simp [ih h]

theorem hasKeyS_setKeyS_ne {α : Type} (l : List (String × α)) (k k' : String) (v : α)
    (h : ¬ k = k') : hasKeyS (setKeyS l k v) k' = hasKeyS l k' := by
  simp [hasKeyS, lookupS_setKeyS_ne l k k' v h]

theorem cacheFor_setCache_self (st : PState) (m : String) (mc : List (String × Val)) :
    cacheFor (setCache st m mc) m = mc := by
  simp [cacheFor, setCache, lookupS_setKeyS_self]

theorem cacheHas_setCacheSnapshot (st : PState) (m : String) (m' s : String) :
    cacheHas (setCache st m (cacheFor st m)) m' s = cacheHas st m' s := by
  by_cases h : m = m'
  · subst h
    simp [cacheHas, cacheFor_setCache_self]
  · simp [cacheHas, cacheFor, setCache, lookupS_setKeyS_ne st.cache m m' _ h]

/-! ### Evolution invariant infrastructure -/

theorem evolves_of_eq (st st' : PState) (he : st'.events = st.events)
    (hc : ∀ m s, cacheHas st' m s = cacheHas st m s) : Evolves st st' := by
  refine ⟨[], by simp [he], ?_, trivial⟩
  intro m s
  simp [hc]

theorem noStaleK_congr (k k' : CacheKeys) (Δ : List Event) (h : ∀ m s, k m s = k' m s) :
    NoStaleK k Δ → NoStaleK k' Δ := by
  induction Δ generalizing k k' with
  | nil => intro; trivial
  | cons e Δ ih =>
    simp only [NoStaleK]
    intro ⟨h1, h2⟩
    refine ⟨fun m f pr ids s he hid hs => ?_, ih _ _ ?_ h2⟩
    · rw [← h]
      exact h1 m f pr ids s he hid hs
    · intro m s
      cases e <;> simp [applyEvK, addKey, h]

theorem foldl_applyEvK_spec (Δ : List Event) (k : CacheKeys) (m s : String) :
    (Δ.foldl applyEvK k) m s = true ↔ (k m s = true ∨ Event.einsert m s ∈ Δ) := by
  induction Δ generalizing k with
  | nil => simp
  | cons e Δ ih =>
    rw [List.foldl_cons, ih]
    cases e with
    | einsert m' s' =>
      simp only [applyEvK, addKey, List.mem_cons, Bool.or_eq_true, Bool.and_eq_true, beq_iff_eq,
        Event.einsert.injEq]
      tauto
    | equery m' f pr => simp [applyEvK]
    | ewarn w => simp [applyEvK]
    | eerror e' => simp [applyEvK]

theorem noStaleK_append (k : CacheKeys) (Δ₁ Δ₂ : List Event) (h1 : NoStaleK k Δ₁)
    (h2 : NoStaleK (Δ₁.foldl applyEvK k) Δ₂) : NoStaleK k (Δ₁ ++ Δ₂) := by
  induction Δ₁ generalizing k with
  | nil => simpa using h2
  | cons e Δ ih =>
    rw [NoStaleK] at h1
    rw [List.cons_append, NoStaleK]
    exact ⟨h1.1, ih _ h1.2 (by simpa using h2)⟩

theorem evolves_trans {st₁ st₂ st₃ : PState} (h12 : Evolves st₁ st₂) (h23 : Evolves st₂ st₃) :
    Evolves st₁ st₃ := by
  obtain ⟨Δ₁, he1, hc1, hn1⟩ := h12
  obtain ⟨Δ₂, he2, hc2, hn2⟩ := h23
  refine ⟨Δ₁ ++ Δ₂, by rw [he2, he1, List.append_assoc], ?_, ?_⟩
  · intro m s
    rw [hc2, hc1]
    simp only [List.mem_append]
    tauto
  · refine noStaleK_append _ _ _ hn1 (noStaleK_congr _ _ _ (fun m s => ?_) hn2)
    by_cases h : cacheHas st₂ m s = true
    · rw [h]
      symm
      rw [foldl_applyEvK_spec]
      exact (hc1 m s).mp h
    · have h' : cacheHas st₂ m s = false := by
        cases hb : cacheHas st₂ m s
        · rfl
        · exact absurd hb h
      rw [h']
      symm
      rw [Bool.eq_false_iff]
      intro hcon
      exact h ((hc1 m s).mpr ((foldl_applyEvK_spec Δ₁ (cacheHas st₁) m s).mp hcon))

theorem evolves_append_warn (st : PState) (w : String) :
    Evolves st { st with events := st.events ++ [.ewarn w] } := by
  refine ⟨[.ewarn w], rfl, ?_, ?_⟩
  · intro m s
    simp [cacheHas, cacheFor]
  · rw [NoStaleK]
    exact ⟨(fun m f pr ids s he => nomatch he), trivial⟩

theorem evolves_append_error (st : PState) (e : String) :
    Evolves st { st with events := st.events ++ [.eerror e] } := by
  refine ⟨[.eerror e], rfl, ?_, ?_⟩
  · intro m s
    simp [cacheHas, cacheFor]
  · rw [NoStaleK]
    exact ⟨(fun m f pr ids s he => nomatch he), trivial⟩

theorem evolves_append_query (st : PState) (m : String) (f : Filter) (pr : Option Projection)
    (h : ∀ ids s, f.idIn = some ids → s ∈ ids → cacheHas st m s = false) :
    Evolves st { st with events := st.events ++ [.equery m f pr] } := by
  refine ⟨[.equery m f pr], rfl, ?_, ?_⟩
  · intro m' s
    simp [cacheHas, cacheFor]
  · rw [NoStaleK]
    refine ⟨fun m' f' pr' ids s he hid hs => ?_, trivial⟩
    cases he
    exact h ids s hid hs

theorem stepOK_of_eq (st st' : PState) (he : st'.events = st.events)
    (hc : ∀ m s, cacheHas st' m s = cacheHas st m s) (ha : st'.active = st.active) :
    StepOK st st' :=
  ⟨evolves_of_eq st st' he hc, ha⟩

theorem stepOK_refl (st : PState) : StepOK st st :=
  stepOK_of_eq st st rfl (fun _ _ => rfl) rfl

theorem stepOK_trans {st₁ st₂ st₃ : PState} (h12 : StepOK st₁ st₂) (h23 : StepOK st₂ st₃) :
    StepOK st₁ st₃ :=
  ⟨evolves_trans h12.1 h23.1, h23.2.trans h12.2⟩

/-! ### Behaviour of fetchDocuments, insertFetched, populateRef, populateVirtual -/

theorem fetchDocuments_eq (reg : Registry) (m : String) (ids : Option (List String))
    (options : PopulateOpt) (customFilter : Option Filter) (st : PState) :
    fetchDocuments reg m ids options customFilter st =
      match reg m with
      | none =>
        if options.strictPopulate = some true then
          (.error ("Model \"" ++ m ++ "\" not found for population"), st)
        else (.ok [], st)
      | some model =>
        match model.find (fdFilter ids options customFilter) (parseSelectToProjection options.select) with
        | some results =>
          (.ok results,
            { st with events := st.events ++ [.equery m (fdFilter ids options customFilter)
                (parseSelectToProjection options.select)] })
        | none =>
          (.ok [],
            { st with events := st.events ++ [.equery m (fdFilter ids options customFilter)
                (parseSelectToProjection options.select),
                .eerror ("Error populating from model \"" ++ m ++ "\"")] }) := by
  cases hreg : reg m with
  | none => simp [fetchDocuments, hreg]
  | some model =>
    cases hf : model.find (fdFilter ids options customFilter)
        (parseSelectToProjection options.select) with
    | some results => simp [fetchDocuments, hreg, fdFilter, hf]
    | none => simp [fetchDocuments, hreg, fdFilter, hf]

theorem fdFilter_idIn (ids : Option (List String)) (options : PopulateOpt)
    (customFilter : Option Filter) :
    (fdFilter ids options customFilter).idIn =
      match ids with
      | some l => some l
      | none => (customFilter.getD emptyFilter).idIn := by
  cases hid : ids <;> cases hcf : customFilter <;> cases hm : options.mtch <;>
    simp [fdFilter, hid, hcf, hm]

theorem evolves_append_query_error (st : PState) (m : String) (f : Filter)
    (pr : Option Projection) (e : String)
    (h : ∀ ids s, f.idIn = some ids → s ∈ ids → cacheHas st m s = false) :
    Evolves st { st with events := st.events ++ [.equery m f pr, .eerror e] } := by
  have h3 := evolves_trans (evolves_append_query st m f pr h)
    (evolves_append_error { st with events := st.events ++ [.equery m f pr] } e)
  have he : st.events ++ [Event.equery m f pr, Event.eerror e] =
      (st.events ++ [Event.equery m f pr]) ++ [Event.eerror e] := by simp
  rw [he]
  exact h3

theorem fetchDocuments_stepOK (reg : Registry) (m : String) (ids : Option (List String))
    (options : PopulateOpt) (customFilter : Option Filter) (st : PState)
    (hids : ∀ l s, ids = some l → s ∈ l → cacheHas st m s = false)
    (hcf : ∀ f, customFilter = some f → f.idIn = none) :
    StepOK st (fetchDocuments reg m ids options customFilter st).2 := by
  have hfid : ∀ l s, (fdFilter ids options customFilter).idIn = some l → s ∈ l →
      cacheHas st m s = false := by
    intro l s hl hs
    rw [fdFilter_idIn] at hl
    cases hid : ids with
    | some l' =>
      rw [hid] at hl
      simp only [Option.some.injEq] at hl
      subst hl
      exact hids l' s hid hs
    | none =>
      rw [hid] at hl
      cases hc : customFilter with
      | none =>
        rw [hc] at hl
        simp [emptyFilter] at hl
      | some f =>
        rw [hc] at hl
        simp [hcf f hc] at hl
  rw [fetchDocuments_eq]
  split
  · split
    · exact stepOK_refl st
    · exact stepOK_refl st
  · split
    · exact ⟨evolves_append_query st m _ _ hfid, rfl⟩
    · exact ⟨evolves_append_query_error st m _ _ _ hfid, rfl⟩

theorem evolves_insert_step (st : PState) (m sid : String) (fd : Val) :
    Evolves st { st with cache := setKeyS st.cache m (setKeyS (cacheFor st m) sid fd), events := st.events ++ [.einsert m sid] } := by
  refine ⟨[.einsert m sid], rfl, ?_, ?_⟩
  · intro m' s'
    simp only [List.mem_singleton, Event.einsert.injEq]
    by_cases hm : m = m'
    · subst hm
      by_cases hs : sid = s'
      · subst hs
        simp [cacheHas, cacheFor, hasKeyS, lookupS_setKeyS_self]
      · have hs' : ¬ s' = sid := fun h => hs h.symm
        simp [cacheHas, cacheFor, hasKeyS, lookupS_setKeyS_self,
          lookupS_setKeyS_ne ((lookupS st.cache m).getD []) sid s' fd hs, hs']
    · have hm' : ¬ m' = m := fun h => hm h.symm
      simp [cacheHas, cacheFor, lookupS_setKeyS_ne st.cache m m' _ hm, hm']
  · rw [NoStaleK]
    exact ⟨(fun a b c d e hee => nomatch hee), trivial⟩

theorem insertFetched_step_stepOK (m : String) (st : PState) (fd : Val) :
    StepOK st
      (match stringifyId (getField fd "_id") with
       | some sid =>
         if sid = "" then st
         else { st with cache := setKeyS st.cache m (setKeyS (cacheFor st m) sid fd), events := st.events ++ [.einsert m sid] }
       | none => st) := by
  cases hsid : stringifyId (getField fd "_id") with
  | none => exact stepOK_refl st
  | some sid =>
    by_cases he : sid = ""
    · simp only [he, if_true]
      exact stepOK_refl st
    · simp only [he, if_false]
      exact ⟨evolves_insert_step st m sid fd, rfl⟩

theorem insertFetched_stepOK (m : String) (fetched : List Val) (st : PState) :
    StepOK st (insertFetched m fetched st) := by
  induction fetched generalizing st with
  | nil => exact stepOK_refl st
  | cons fd tl ih =>
    have hstep : insertFetched m (fd :: tl) st =
        insertFetched m tl
          (match stringifyId (getField fd "_id") with
           | some sid =>
             if sid = "" then st
             else { st with cache := setKeyS st.cache m (setKeyS (cacheFor st m) sid fd), events := st.events ++ [.einsert m sid] }
           | none => st) := by
      simp only [insertFetched, List.foldl_cons]
    rw [hstep]
    exact stepOK_trans (insertFetched_step_stepOK m st fd) (ih _)

theorem populateRef_stepOK (reg : Registry) (docs : List Doc) (pp : ParsedPopulatePath)
    (st : PState) : StepOK st (populateRef reg docs pp st).2 := by
  simp only [populateRef]
  split
  · exact stepOK_refl st
  · split
    · exact stepOK_refl st
    · have hstep1 : StepOK st (setCache st (pp.modelName.getD "") (cacheFor st (pp.modelName.getD ""))) :=
        stepOK_of_eq _ _ rfl (cacheHas_setCacheSnapshot st (pp.modelName.getD "")) rfl
      split
      · next e st' heq =>
        split at heq
        · exact absurd heq (by simp)
        · have h2 := fetchDocuments_stepOK reg (pp.modelName.getD "")
            (some ((idsToFetchOf docs pp).filter
              (fun s => !(hasKeyS (cacheFor st (pp.modelName.getD "")) s))))
            pp.options none
            (setCache st (pp.modelName.getD "") (cacheFor st (pp.modelName.getD "")))
            (by
              intro l s hl hs
              simp only [Option.some.injEq] at hl
              subst hl
              have := List.of_mem_filter hs
              simp only [Bool.not_eq_true'] at this
              simp [cacheHas, cacheFor_setCache_self, this])
            (fun f hf => nomatch hf)
          rw [heq] at h2
          exact stepOK_trans hstep1 h2
      · next fetched st' heq =>
        have h2 : StepOK st st' := by
          split at heq
          · obtain ⟨h1, h2⟩ := Prod.mk.injEq _ _ _ _ ▸ heq
            have : st' = setCache st (pp.modelName.getD "") (cacheFor st (pp.modelName.getD "")) := by
              cases heq
              rfl
            rw [this]
            exact hstep1
          · have h3 := fetchDocuments_stepOK reg (pp.modelName.getD "")
              (some ((idsToFetchOf docs pp).filter
                (fun s => !(hasKeyS (cacheFor st (pp.modelName.getD "")) s))))
              pp.options none
              (setCache st (pp.modelName.getD "") (cacheFor st (pp.modelName.getD "")))
              (by
                intro l s hl hs
                simp only [Option.some.injEq] at hl
                subst hl
                have := List.of_mem_filter hs
                simp only [Bool.not_eq_true'] at this
                simp [cacheHas, cacheFor_setCache_self, this])
              (fun f hf => nomatch hf)
            rw [heq] at h3
            exact stepOK_trans hstep1 h3
        exact stepOK_trans h2 (insertFetched_stepOK _ fetched st')

theorem populateVirtual_stepOK (reg : Registry) (docs : List Doc) (pp : ParsedPopulatePath)
    (st : PState) : StepOK st (populateVirtual reg docs pp st).2 := by
  simp only [populateVirtual]
  split
  · exact stepOK_refl st
  · split
    · exact stepOK_refl st
    · have h2 := fetchDocuments_stepOK reg (pp.modelName.getD "") none pp.options
        (some { idIn := none,
                foreignIn := some (pp.foreignField.getD "", localValuesOf docs pp)
                matchF := pp.options.mtch.getD [] }) st
        (fun l s hl => nomatch hl)
        (by intro f hf; cases hf; rfl)
      split
      · next e st' heq =>
        rw [heq] at h2
        exact h2
      · next fetched st' heq =>
        rw [heq] at h2
        exact h2

/-! ### The population recursion evolves the state and restores the guard -/

theorem runNestedOpts_stepOK_of
    (f : List Doc → PopulateOpt → PState → Except String (List Doc) × PState)
    (hf : ∀ docs o st, StepOK st (f docs o st).2) :
    ∀ opts docs st, StepOK st (runNestedOpts f docs opts st).2 := by
  intro opts
  induction opts with
  | nil =>
    intro docs st
    exact stepOK_refl st
  | cons o os ih =>
    intro docs st
    simp only [runNestedOpts]
    split
    · next e st' heq =>
      have h1 := hf docs o st
      rw [heq] at h1
      exact h1
    · next docs' st' heq =>
      have h1 := hf docs o st
      rw [heq] at h1
      exact stepOK_trans h1 (ih docs' st')

theorem runNestedDocs_stepOK_of (g : List Doc → PState → Except String (List Doc) × PState)
    (path : String) (hg : ∀ docs st, StepOK st (g docs st).2) :
    ∀ docs st, StepOK st (runNestedDocs g path docs st).2 := by
  intro docs
  induction docs with
  | nil =>
    intro st
    exact stepOK_refl st
  | cons d ds ih =>
    intro st
    simp only [runNestedDocs]
    split
    · split
      · next e st₁ heq =>
        have h1 := hg ((toSubVals (getNestedValue d.val path)).map (fun v => ⟨v, none⟩)) st
        rw [heq] at h1
        exact h1
      · next subDocs' st₁ heq =>
        have h1 := hg ((toSubVals (getNestedValue d.val path)).map (fun v => ⟨v, none⟩)) st
        rw [heq] at h1
        split
        · next e st₂ heq₂ =>
          have h2 := ih st₁
          rw [heq₂] at h2
          exact stepOK_trans h1 h2
        · next ds' st₂ heq₂ =>
          have h2 := ih st₁
          rw [heq₂] at h2
          exact stepOK_trans h1 h2
    · split
      · next e st₂ heq₂ =>
        have h2 := ih st
        rw [heq₂] at h2
        exact h2
      · next ds' st₂ heq₂ =>
        have h2 := ih st
        rw [heq₂] at h2
        exact h2

theorem populatePathBody_stepOK (reg : Registry)
    (f : List Doc → PopulateOpt → Option SchemaLike → PState → Except String (List Doc) × PState)
    (docs : List Doc) (opt : PopulateOpt) (schema : Option SchemaLike) (st : PState)
    (hf : ∀ ds o sc s, StepOK s (f ds o sc s).2) :
    StepOK st (populatePathBody reg f docs opt schema st).2 := by
  have hif : StepOK st
      ((if (parsePopulatePath opt.path opt schema).isVirtual then
        populateVirtual reg docs (parsePopulatePath opt.path opt schema) st
      else
        populateRef reg docs (parsePopulatePath opt.path opt schema) st)).2 := by
    cases hv : (parsePopulatePath opt.path opt schema).isVirtual
    · simp only [hv, Bool.false_eq_true, if_false]
      exact populateRef_stepOK reg docs _ _
    · simp only [hv, if_true]
      exact populateVirtual_stepOK reg docs _ _
  simp only [populatePathBody]
  split
  · split
    · exact stepOK_refl st
    · exact stepOK_refl st
  · split
    · next e st' heq =>
      rw [heq] at hif
      exact hif
    · next docs' st' heq =>
      rw [heq] at hif
      split
      · split
        · exact stepOK_trans hif
            (runNestedDocs_stepOK_of _ opt.path
              (fun subDocsq stq => runNestedOpts_stepOK_of _
                (fun a b c => hf a b _ c) _ subDocsq stq) docs' st')
        · exact hif
      · exact hif

theorem populatePath_stepOK (reg : Registry) :
    ∀ fuel docs opt schema st, StepOK st (populatePath reg fuel docs opt schema st).2 := by
  intro fuel
  induction fuel with
  | zero =>
    intro docs opt schema st
    exact stepOK_refl st
  | succ fuel ih =>
    intro docs opt schema st
    simp only [populatePath]
    split
    · exact ⟨evolves_append_warn st _, rfl⟩
    · next hmem =>
      have hbody := populatePathBody_stepOK reg (populatePath reg fuel) docs opt schema
        { st with active := opt.path :: st.active } (fun ds o sc s => ih ds o sc s)
      refine ⟨?_, ?_⟩
      · refine evolves_trans (evolves_trans
          (evolves_of_eq st { st with active := opt.path :: st.active } rfl (fun _ _ => rfl))
          hbody.1) ?_
        exact evolves_of_eq _ _ rfl (fun _ _ => rfl)
      · simp [hbody.2]

theorem processPaths_stepOK (reg : Registry) (fuel : Nat) (schema : Option SchemaLike) :
    ∀ opts docs st, StepOK st (processPaths reg fuel docs opts schema st).2 := by
  intro opts
  induction opts with
  | nil =>
    intro docs st
    exact stepOK_refl st
  | cons o os ih =>
    intro docs st
    simp only [processPaths]
    split
    · exact ih docs st
    · cases hpp : populatePath reg fuel docs o schema st with
      | mk res st' =>
        have h1 := populatePath_stepOK reg fuel docs o schema st
        rw [hpp] at h1
        cases res with
        | error e => exact h1
        | ok docs' => exact stepOK_trans h1 (ih docs' st')

theorem populate_stepOK (reg : Registry) (fuel : Nat) (docs : List Doc) (paths : PopulateInput)
    (schema : Option SchemaLike) :
    StepOK initState (populate reg fuel docs paths schema).2 := by
  simp only [populate]
  split
  · exact stepOK_refl initState
  · split
    · exact stepOK_refl initState
    · exact processPaths_stepOK reg fuel schema _ docs initState

theorem applyEvK_false (k : CacheKeys) (e : Event) (m s : String)
    (h : applyEvK k e m s = false) : k m s = false := by
  cases e with
  | einsert m' s' =>
    simp only [applyEvK, addKey, Bool.or_eq_false_iff] at h
    exact h.1
  | equery m' f pr => exact h
  | ewarn w => exact h
  | eerror e' => exact h

theorem applyEvK_insert_self (k : CacheKeys) (m s : String) :
    applyEvK k (.einsert m s) m s = true := by
  simp [applyEvK, addKey]

/-- In a trace satisfying `NoStaleK k`, an id requested by a query was neither
in `k` nor inserted at any earlier position. -/
theorem noStaleK_query_clean : ∀ (Δ : List Event) (k : CacheKeys) (j : Nat) (m : String)
    (f : Filter) (pr : Option Projection) (ids : List String) (s : String),
    NoStaleK k Δ → Δ.get? j = some (.equery m f pr) → f.idIn = some ids → s ∈ ids →
    k m s = false ∧ ∀ i, i < j → Δ.get? i ≠ some (.einsert m s) := by
  intro Δ
  induction Δ with
  | nil =>
    intro k j m f pr ids s hns hj
    simp at hj
  | cons e Δ ih =>
    intro k j m f pr ids s hns hj hids hs
    rw [NoStaleK] at hns
    obtain ⟨hhead, htail⟩ := hns
    cases j with
    | zero =>
      simp only [List.get?] at hj
      injection hj with hj
      refine ⟨hhead m f pr ids s hj hids hs, ?_⟩
      intro i hi
      omega
    | succ j' =>
      simp only [List.get?] at hj
      obtain ⟨h1, h2⟩ := ih (applyEvK k e) j' m f pr ids s htail hj hids hs
      refine ⟨applyEvK_false k e m s h1, ?_⟩
      intro i hi
      cases i with
      | zero =>
        simp only [List.get?]
        intro hcon
        injection hcon with hcon
        rw [hcon] at h1
        rw [applyEvK_insert_self] at h1
        exact Bool.true_eq_false ▸ h1
      | succ i' =>
        simp only [List.get?]
        exact h2 i' (by omega)

/-! ### The claims -/

/-- C2 (amended): throughout a single populate call, once a record is
inserted into the fetch cache under (collection, stringified id), no later
id-batched store query of the call requests that id — every later
direct-reference resolution of it reuses the cache.  (The original claim — at
most one query per id outright — fails when the store never returns a record
for a requested id: nothing is cached, and a later path may request the same
id again; see the counterexample.) -/
theorem pop_cached_id_never_requeried (reg : Registry) (fuel : Nat) (docs : List Doc)
    (paths : PopulateInput) (schema : Option SchemaLike) (m s : String) (i j : Nat)
    (f : Filter) (pr : Option Projection) (ids : List String)
    (hi : (populate reg fuel docs paths schema).2.events.get? i = some (.einsert m s))
    (hj : (populate reg fuel docs paths schema).2.events.get? j = some (.equery m f pr))
    (hij : i < j) (hids : f.idIn = some ids) : s ∉ ids := by
  intro hs
  obtain ⟨Δ, hev, hiff, hns⟩ := (populate_stepOK reg fuel docs paths schema).1
  simp only [initState, List.nil_append] at hev
  rw [hev] at hi hj
  obtain ⟨h1, h2⟩ := noStaleK_query_clean Δ (cacheHas initState) j m f pr ids s hns hj hids hs
  exact h2 i hij hi

/-- C2 witness: a run in which the Author record with id `A` is inserted into
the cache by the first path's query (position 1) and the second path's query
(position 2) requests only `Y`. -/
theorem pop_cached_id_never_requeried_witness : ("A" : String) ∉ (["Y"] : List String) :=
  pop_cached_id_never_requeried exReg 5 [exAB2Doc] (.str "a b") (some exAB2Schema)
    "Author" "A" 1 2 ⟨some ["Y"], none, []⟩ none ["Y"] rfl rfl (by decide) rfl

/-- C2 counterexample: with both paths `a` and `b` of one document holding the
id `X` of a record the store never returns, a single populate call issues two
store queries requesting `X` — "at most one store query per unique id per
collection per population call" is false as stated. -/
theorem pop_same_id_requested_twice_counterexample :
    ((populate exMReg 5 [exABDoc] (.str "a b") (some exABSchema)).2.events.countP
      (requestsId "M" "X")) = 2 := rfl

/-- C4: code bug — populating a direct array-reference path with
`justOne: true` still assigns the full record list (`isArray ||
options.justOne === false` short-circuits before `justOne === true` is
consulted), contradicting the option's own documentation ("Force returning
single doc (true) …, overrides schema") and the claim. -/
theorem justOne_true_on_array_ref_assigns_list :
    exTagOpt.justOne = some true ∧
    (populate exTagReg 5 [exTagDoc] (.opt exTagOpt) (some exTagSchema)).1 =
      .ok [⟨.vobj [("tags", .varr [.vobj [("_id", .vstr "T1")], .vobj [("_id", .vstr "T2")]])],
        none⟩] :=
  ⟨rfl, rfl⟩

/-- C9: the circular guard terminates self-referential population.  (1) Every
`populatePath` call removes its path from the active set on exit, success or
failure.  (2) Entering a path already in the active set aborts that path's
resolution only: a warning is logged and the documents are returned
unmodified.  (3) In the concrete cyclic schema where `a` nested-populates `b`
which nested-populates `a`, the call terminates with the outer `a` and `b`
populated, the nested `a` left as the raw id, exactly one circular warning,
and exactly one query into each of the two collections. -/
theorem populatePath_cycle_guard :
    (∀ (reg : Registry) (fuel : Nat) (docs : List Doc) (opt : PopulateOpt)
        (schema : Option SchemaLike) (st : PState),
      ((populatePath reg fuel docs opt schema st).2).active = st.active) ∧
    (∀ (reg : Registry) (fuel : Nat) (docs : List Doc) (opt : PopulateOpt)
        (schema : Option SchemaLike) (st : PState),
      opt.path ∈ st.active →
      populatePath reg (fuel + 1) docs opt schema st =
        (.ok docs, { st with events := st.events ++
          [.ewarn ("Circular population detected for path: " ++ opt.path)] })) ∧
    ((populate exCReg 10 [exCDoc] (.opt exCOpt) (some exCRootSchema)).1 =
        .ok [⟨.vobj [("a", .vobj [("_id", .vstr "A1"),
          ("b", .vobj [("_id", .vstr "B1"), ("a", .vstr "A1")])])], none⟩] ∧
      (populate exCReg 10 [exCDoc] (.opt exCOpt) (some exCRootSchema)).2.events.countP
        isWarnEvent = 1 ∧
      (populate exCReg 10 [exCDoc] (.opt exCOpt) (some exCRootSchema)).2.events.countP
        isQueryEvent = 2) := by
  refine ⟨?_, ?_, rfl, rfl, rfl⟩
  · intro reg fuel docs opt schema st
    exact (populatePath_stepOK reg fuel docs opt schema st).2
  · intro reg fuel docs opt schema st h
    simp only [populatePath, if_pos h]

/-- C9 witness: the abort conjunct applied at a concrete state whose active
set already holds the path. -/
theorem populatePath_cycle_guard_witness :
    populatePath exCReg 3 [exCDoc] (defaultOpt "a") (some exCRootSchema) ⟨[], ["a"], []⟩ =
      (.ok [exCDoc], ⟨[], ["a"], [.ewarn "Circular population detected for path: a"]⟩) := by
  have h := populatePath_cycle_guard.2.1 exCReg 2 [exCDoc] (defaultOpt "a")
    (some exCRootSchema) ⟨[], ["a"], []⟩ (by decide)
  exact h

/-- C10: the `skip === true` check is applied only to the top-level normalized
request list.  (1) The top-level loop behaves exactly as if skipped requests
were filtered out.  (2) A nested request with `skip: true` is still resolved:
in the concrete run, the nested `b` request carries `skip: true` yet its query
is issued and its field is populated. -/
theorem topLevel_skip_frame :
    (∀ (reg : Registry) (fuel : Nat) (docs : List Doc) (opts : List PopulateOpt)
        (schema : Option SchemaLike) (st : PState),
      processPaths reg fuel docs opts schema st =
        processPaths reg fuel docs (opts.filter notSkipped) schema st) ∧
    ((populate exCReg 10 [exCDoc] (.opt exNOpt) (some exCRootSchema)).2.events.countP
        isQueryEvent = 2 ∧
      (populate exCReg 10 [exCDoc] (.opt exNOpt) (some exCRootSchema)).1 =
        .ok [⟨.vobj [("a", .vobj [("_id", .vstr "A1"),
          ("b", .vobj [("_id", .vstr "B1"), ("a", .vstr "A1")])])], none⟩]) := by
  refine ⟨?_, rfl, rfl⟩
  intro reg fuel docs opts schema st
  induction opts generalizing docs st with
  | nil => rfl
  | cons o os ih =>
    by_cases hskip : o.skip = some true
    · simp only [processPaths, if_pos hskip, List.filter, notSkipped, hskip]
      simp only [decide_True, Bool.not_true]
      exact ih docs st
    · simp only [processPaths, if_neg hskip, List.filter, notSkipped]
      have hns : (!decide (o.skip = some true)) = true := by
        simp [hskip]
      simp only [hns]
      simp only [processPaths, if_neg hskip]
      cases hpp : populatePath reg fuel docs o schema st with
    | mk res st' =>
      cases res with
      | error e => rfl
      | ok docs' => exact ih docs' st'

/-- C6: an unresolvable path (no virtual, no direct-reference metadata, no
model override) fails the whole populate call when the request sets
`strictPopulate`, and with default options succeeds returning the documents
with the field untouched. -/
theorem strict_vs_lenient_unresolved (reg : Registry) (fuel : Nat) (docs : List Doc)
    (popt : PopulateOpt) (schema : Option SchemaLike)
    (hdocs : docs ≠ [])
    (hskip : popt.skip ≠ some true)
    (hm : strTruthy (parsePopulatePath popt.path popt schema).modelName = false)
    (hv : (parsePopulatePath popt.path popt schema).isVirtual = false) :
    (popt.strictPopulate = some true →
      populate reg (fuel + 1) docs (.opt popt) schema =
        (.error ("Cannot populate path \"" ++ popt.path ++ "\": no ref found in schema"),
          initState)) ∧
    (popt.strictPopulate ≠ some true →
      populate reg (fuel + 1) docs (.opt popt) schema = (.ok docs, initState)) := by
  cases docs with
  | nil => exact absurd rfl hdocs
  | cons d ds =>
    have hred : populate reg (fuel + 1) (d :: ds) (.opt popt) schema =
        processPaths reg (fuel + 1) (d :: ds) [popt] schema initState := by
      simp [populate, normalizePopulateOptions]
    have hcond : (!strTruthy (parsePopulatePath popt.path popt schema).modelName &&
        !(parsePopulatePath popt.path popt schema).isVirtual) = true := by
      simp [hm, hv]
    constructor
    · intro hstrict
      rw [hred]
      simp only [processPaths, if_neg hskip, populatePath,
        if_neg (List.not_mem_nil popt.path), populatePathBody, hcond, if_pos hcond,
        if_pos hstrict]
      simp [initState, List.erase_cons_head]
    · intro hstrict
      rw [hred]
      simp only [processPaths, if_neg hskip, populatePath,
        if_neg (List.not_mem_nil popt.path), populatePathBody, hcond, if_pos hcond,
        if_neg hstrict]
      simp [processPaths, initState, List.erase_cons_head]

/-- C6 witness: the unresolvable path `nope` under the example schema: strict
fails the call, lenient returns the document untouched. -/
theorem strict_vs_lenient_unresolved_witness :
    populate exRegNone 5 [exDoc] (.opt exStrictOpt) (some exSchema) =
      (.error "Cannot populate path \"nope\": no ref found in schema", initState) ∧
    populate exRegNone 5 [exDoc] (.opt (defaultOpt "nope")) (some exSchema) =
      (.ok [exDoc], initState) := by
  constructor
  · exact (strict_vs_lenient_unresolved exRegNone 4 [exDoc] exStrictOpt (some exSchema)
      (by simp) (by decide) rfl rfl).1 rfl
  · exact (strict_vs_lenient_unresolved exRegNone 4 [exDoc] (defaultOpt "nope") (some exSchema)
      (by simp) (by decide) rfl rfl).2 (by decide)

/-- A populate call with one direct-reference, no-nested request reduces to
one `populateRef` resolution from a fresh context. -/
theorem populate_single_direct_run (reg : Registry) (fuel : Nat) (docs : List Doc)
    (paths : PopulateInput) (popt : PopulateOpt) (schema : Option SchemaLike)
    (hnorm : normalizePopulateOptions paths = [popt])
    (hdocs : docs ≠ []) (hskip : popt.skip ≠ some true) (hpop : popt.pop = none)
    (hm : strTruthy (parsePopulatePath popt.path popt schema).modelName = true)
    (hv : (parsePopulatePath popt.path popt schema).isVirtual = false) :
    populate reg (fuel + 1) docs paths schema =
      (match populateRef reg docs (parsePopulatePath popt.path popt schema)
          ⟨[], [popt.path], []⟩ with
       | (res, st') => (res, { st' with active := st'.active.erase popt.path })) := by
  cases docs with
  | nil => exact absurd rfl hdocs
  | cons d ds =>
    have hred : populate reg (fuel + 1) (d :: ds) paths schema =
        processPaths reg (fuel + 1) (d :: ds) [popt] schema initState := by
      simp [populate, hnorm]
    rw [hred]
    simp only [processPaths, if_neg hskip, populatePath, initState,
      if_neg (List.not_mem_nil popt.path), populatePathBody, hm, hv, Bool.not_true,
      Bool.false_and, Bool.false_eq_true, if_false, hpop]
    cases hpr : populateRef reg (d :: ds) (parsePopulatePath popt.path popt schema)
        ⟨[], [popt.path], []⟩ with
    | mk res st' =>
      cases res with
      | error e => rfl
      | ok docs' => rfl

/-- With an empty model cache, the assignment step overwrites every matched
document's field with `null` (single cardinality) or the empty list (array
cardinality or `justOne: false`), and records the raw value for
depopulation. -/
theorem assignOneRef_empty_cache (pp : ParsedPopulatePath) (d : Doc) :
    assignOneRef pp [] d =
      match refIdsOf pp d with
      | none => d
      | some ids =>
        ⟨setNestedValue d.val pp.path
            (if pp.isArray || pp.options.justOne = some false then Val.varr [] else Val.vnull),
          match d.internalPopulated with
          | some pm => some (setKeyS pm pp.path
              (if ids.length = 1 && !pp.isArray then ids.headD .vundef else .varr ids))
          | none => none⟩ := by
  cases hids : refIdsOf pp d with
  | none => simp [assignOneRef, hids]
  | some ids =>
    have hfold : ∀ (l : List Val) (acc : List Val),
        (l.foldl (fun acc id =>
          match stringifyId id with
          | some sid =>
            if sid = "" then acc
            else
              match lookupS ([] : List (String × Val)) sid with
              | some pd =>
                let pd := match pp.options.transform with
                  | some f => if truthy pd then f pd else pd
                  | none => pd
                if isNullish pd then acc else acc ++ [pd]
              | none => acc
          | none => acc) acc) = acc := by
      intro l
      induction l with
      | nil => intro acc; rfl
      | cons x xs ih =>
        intro acc
        rw [List.foldl_cons, ih]
        cases hsx : stringifyId x with
        | none => rfl
        | some sid =>
          by_cases hse : sid = ""
          · simp [hse]
          · simp [hse, lookupS]
    simp only [assignOneRef, hids, hfold]
    by_cases h1 : (pp.isArray || decide (pp.options.justOne = some false)) = true
    · simp [h1]
    · have h2 : pp.isArray = false := by
        cases ha : pp.isArray
        · rfl
        · rw [ha] at h1
          simp at h1
      simp only [h1, if_false, h2, Bool.not_false, Bool.or_true, if_true]
      simp [List.headD]

theorem fdFilter_some_none (l : List String) (options : PopulateOpt) :
    fdFilter (some l) options none = ⟨some l, none, options.mtch.getD []⟩ := by
  cases hm : options.mtch <;> simp [fdFilter, hm, emptyFilter]

theorem insertFetched_nil (m : String) (st : PState) : insertFetched m [] st = st := rfl

/-- C7 (amended): when a direct-reference path resolves to a collection name
not in the registry and strict mode is not set, the path is not skipped and
no warning is emitted: no store query is issued, every document with a
non-nullish value at the path has the field overwritten with `null` (single
cardinality) or the empty list (array cardinality or `justOne: false`), the
raw value is recorded for depopulation, and the overall call succeeds.  (The
original claim — warning emitted, fields left untouched — fails; see the
counterexample.) -/
theorem unregistered_model_lenient_overwrites (reg : Registry) (fuel : Nat) (docs : List Doc)
    (popt : PopulateOpt) (schema : Option SchemaLike) (pp : ParsedPopulatePath) (mname : String)
    (hpp : parsePopulatePath popt.path popt schema = pp)
    (hdocs : docs ≠ []) (hskip : popt.skip ≠ some true) (hpop : popt.pop = none)
    (hv : pp.isVirtual = false)
    (hm : pp.modelName = some mname) (hmne : mname ≠ "")
    (hreg : reg mname = none)
    (hstrict : pp.options.strictPopulate ≠ some true)
    (hS : idsToFetchOf docs pp ≠ []) :
    populate reg (fuel + 1) docs (.opt popt) schema =
      (.ok (docs.map fun d =>
        match refIdsOf pp d with
        | none => d
        | some ids =>
          ⟨setNestedValue d.val pp.path
              (if pp.isArray || pp.options.justOne = some false then Val.varr [] else Val.vnull),
            match d.internalPopulated with
            | some pm => some (setKeyS pm pp.path
                (if ids.length = 1 && !pp.isArray then ids.headD .vundef else .varr ids))
            | none => none⟩),
       ⟨[(mname, [])], [], []⟩) := by
  have hmT : strTruthy pp.modelName = true := by
    rw [hm]
    simp [strTruthy, hmne]
  have hmT' : strTruthy (some mname) = true := by
    simp [strTruthy, hmne]
  rw [populate_single_direct_run reg fuel docs (.opt popt) popt schema rfl hdocs hskip hpop
    (by rw [hpp]; exact hmT) (by rw [hpp]; exact hv)]
  rw [hpp]
  have hSe : (idsToFetchOf docs pp).isEmpty = false := by
    cases h : idsToFetchOf docs pp with
    | nil => exact absurd h hS
    | cons a l => rfl
  have hfil : (idsToFetchOf docs pp).filter
      (fun s => !(hasKeyS (cacheFor ⟨[], [popt.path], []⟩ mname) s)) = idsToFetchOf docs pp := by
    apply List.filter_eq_self.mpr
    intro a ha
    rfl
  have hpr : populateRef reg docs pp ⟨[], [popt.path], []⟩ =
      (.ok (docs.map (assignOneRef pp [])),
        setCache ⟨[], [popt.path], []⟩ mname (cacheFor ⟨[], [popt.path], []⟩ mname)) := by
    simp only [populateRef, hm, Option.getD_some, hmT', Bool.not_true, Bool.false_eq_true,
      if_false, hSe, hfil]
    rw [fetchDocuments_eq]
    rw [hreg]
    simp only [if_neg hstrict, insertFetched_nil, cacheFor_setCache_self]
    rfl
  rw [hpr]
  have hmap : docs.map (assignOneRef pp []) =
      docs.map (fun d =>
        match refIdsOf pp d with
        | none => d
        | some ids =>
          ⟨setNestedValue d.val pp.path
              (if pp.isArray || pp.options.justOne = some false then Val.varr [] else Val.vnull),
            match d.internalPopulated with
            | some pm => some (setKeyS pm pp.path
                (if ids.length = 1 && !pp.isArray then ids.headD .vundef else .varr ids))
            | none => none⟩) := by
    have hfun : assignOneRef pp ([] : List (String × Val)) =
        fun d =>
          match refIdsOf pp d with
          | none => d
          | some ids =>
            ⟨setNestedValue d.val pp.path
                (if pp.isArray || pp.options.justOne = some false then Val.varr [] else Val.vnull),
              match d.internalPopulated with
              | some pm => some (setKeyS pm pp.path
                  (if ids.length = 1 && !pp.isArray then ids.headD .vundef else .varr ids))
              | none => none⟩ := funext (assignOneRef_empty_cache pp)
    rw [hfun]
  rw [hmap]
  simp [setCache, cacheFor, lookupS, setKeyS, List.erase_cons_head]

/-- C7 witness: the example document with `authorId: "A"` against an empty
registry: the field becomes `null`, the raw id is tracked, and no event (no
query, no warning) is logged. -/
theorem unregistered_model_lenient_overwrites_witness :
    populate exRegNone 5 [exDoc] (.opt (defaultOpt "authorId")) (some exSchema) =
      (.ok [⟨.vobj [("_id", .vnum 1), ("authorId", .vnull)], some [("authorId", .vstr "A")]⟩],
        ⟨[("Author", [])], [], []⟩) := by
  have h := unregistered_model_lenient_overwrites exRegNone 4 [exDoc] (defaultOpt "authorId")
    (some exSchema) (parsePopulatePath "authorId" (defaultOpt "authorId") (some exSchema))
    "Author" rfl (by simp) (by decide) rfl rfl rfl (by decide) rfl (by decide) (by decide)
  exact h.trans rfl

/-- C7 counterexample: the same run falsifies the claim as stated — the
document's field at the path is not left untouched (it is overwritten with
`null`), and no warning is emitted (the event log is empty). -/
theorem unregistered_model_no_warning_counterexample :
    (match (populate exRegNone 5 [exDoc] (.str "authorId") (some exSchema)).1 with
      | .ok [d] => getNestedValue d.val "authorId"
      | _ => Val.vundef) = Val.vnull ∧
    (populate exRegNone 5 [exDoc] (.str "authorId") (some exSchema)).2.events = [] :=
  ⟨rfl, rfl⟩

/-- C8: a rejected store query is caught for the path and treated as zero
records fetched: exactly one query and one logged error, every matched
document's field receives the empty list or `null`, and the overall call
succeeds. -/
theorem fetch_failure_treated_as_zero_records (reg : Registry) (fuel : Nat) (docs : List Doc)
    (popt : PopulateOpt) (schema : Option SchemaLike) (pp : ParsedPopulatePath)
    (mname : String) (model : ModelLike)
    (hpp : parsePopulatePath popt.path popt schema = pp)
    (hdocs : docs ≠ []) (hskip : popt.skip ≠ some true) (hpop : popt.pop = none)
    (hv : pp.isVirtual = false)
    (hm : pp.modelName = some mname) (hmne : mname ≠ "")
    (hreg : reg mname = some model)
    (hfind : ∀ f pr, model.find f pr = none)
    (hS : idsToFetchOf docs pp ≠ []) :
    populate reg (fuel + 1) docs (.opt popt) schema =
      (.ok (docs.map fun d =>
        match refIdsOf pp d with
        | none => d
        | some ids =>
          ⟨setNestedValue d.val pp.path
              (if pp.isArray || pp.options.justOne = some false then Val.varr [] else Val.vnull),
            match d.internalPopulated with
            | some pm => some (setKeyS pm pp.path
                (if ids.length = 1 && !pp.isArray then ids.headD .vundef else .varr ids))
            | none => none⟩),
       ⟨[(mname, [])], [],
        [.equery mname ⟨some (idsToFetchOf docs pp), none, pp.options.mtch.getD []⟩
           (parseSelectToProjection pp.options.select),
         .eerror ("Error populating from model \"" ++ mname ++ "\"")]⟩) := by
  have hmT : strTruthy pp.modelName = true := by
    rw [hm]
    simp [strTruthy, hmne]
  have hmT' : strTruthy (some mname) = true := by
    simp [strTruthy, hmne]
  rw [populate_single_direct_run reg fuel docs (.opt popt) popt schema rfl hdocs hskip hpop
    (by rw [hpp]; exact hmT) (by rw [hpp]; exact hv)]
  rw [hpp]
  have hSe : (idsToFetchOf docs pp).isEmpty = false := by
    cases h : idsToFetchOf docs pp with
    | nil => exact absurd h hS
    | cons a l => rfl
  have hfil : (idsToFetchOf docs pp).filter
      (fun s => !(hasKeyS (cacheFor ⟨[], [popt.path], []⟩ mname) s)) = idsToFetchOf docs pp := by
    apply List.filter_eq_self.mpr
    intro a ha
    rfl
  have hpr : populateRef reg docs pp ⟨[], [popt.path], []⟩ =
      (.ok (docs.map (assignOneRef pp [])),
        ⟨[(mname, [])], [popt.path],
          [.equery mname ⟨some (idsToFetchOf docs pp), none, pp.options.mtch.getD []⟩
             (parseSelectToProjection pp.options.select),
           .eerror ("Error populating from model \"" ++ mname ++ "\"")]⟩) := by
    simp only [populateRef, hm, Option.getD_some, hmT', Bool.not_true, Bool.false_eq_true,
      if_false, hSe, hfil]
    rw [fetchDocuments_eq]
    rw [hreg]
    simp only [fdFilter_some_none, hfind, insertFetched_nil, cacheFor_setCache_self]
    simp [setCache, cacheFor, lookupS, setKeyS]
  rw [hpr]
  have hfun : assignOneRef pp ([] : List (String × Val)) =
      fun d =>
        match refIdsOf pp d with
        | none => d
        | some ids =>
          ⟨setNestedValue d.val pp.path
              (if pp.isArray || pp.options.justOne = some false then Val.varr [] else Val.vnull),
            match d.internalPopulated with
            | some pm => some (setKeyS pm pp.path
                (if ids.length = 1 && !pp.isArray then ids.headD .vundef else .varr ids))
            | none => none⟩ := funext (assignOneRef_empty_cache pp)
  rw [hfun]
  simp [List.erase_cons_head]

/-- C8 witness: the example document against a model whose `find` always
rejects: the field becomes `null`, one query and one error are logged, and
the call succeeds. -/
theorem fetch_failure_treated_as_zero_records_witness :
    populate exRegReject 5 [exDoc] (.opt (defaultOpt "authorId")) (some exSchema) =
      (.ok [⟨.vobj [("_id", .vnum 1), ("authorId", .vnull)], some [("authorId", .vstr "A")]⟩],
        ⟨[("Author", [])], [],
          [.equery "Author" ⟨some ["A"], none, []⟩ none,
           .eerror "Error populating from model \"Author\""]⟩) := by
  have h := fetch_failure_treated_as_zero_records exRegReject 4 [exDoc] (defaultOpt "authorId")
    (some exSchema) (parsePopulatePath "authorId" (defaultOpt "authorId") (some exSchema))
    "Author" { find := fun _ _ => none, schema := none }
    rfl (by simp) (by decide) rfl rfl rfl (by decide) rfl (fun f pr => rfl) (by decide)
  exact h.trans rfl

theorem insertFetched_events (m : String) (fetched : List Val) (st : PState) :
    ∃ Δ, (insertFetched m fetched st).events = st.events ++ Δ ∧ Δ.filter isQueryEvent = [] := by
  induction fetched generalizing st with
  | nil => exact ⟨[], by simp [insertFetched], rfl⟩
  | cons fd rest ih =>
    show ∃ Δ, (insertFetched m rest
        (match stringifyId (getField fd "_id") with
          | some sid =>
            if sid = "" then st
            else
              { st with
                  cache := setKeyS st.cache m (setKeyS (cacheFor st m) sid fd)
                  events := st.events ++ [Event.einsert m sid] }
          | none => st)).events = st.events ++ Δ ∧ Δ.filter isQueryEvent = []
    cases hs : stringifyId (getField fd "_id") with
    | none => exact ih st
    | some sid =>
      by_cases hse : sid = ""
      · simp only [if_pos hse]
        exact ih st
      · simp only [if_neg hse]
        obtain ⟨Δ, h1, h2⟩ := ih { st with
          cache := setKeyS st.cache m (setKeyS (cacheFor st m) sid fd)
          events := st.events ++ [Event.einsert m sid] }
        refine ⟨Event.einsert m sid :: Δ, ?_, ?_⟩
        · rw [h1]
          simp
        · simp [isQueryEvent, h2]

/-- C1: a registered direct-reference population issues at most one store
query: none when every distinct referenced id is already cached (or no id is
referenced at all), and otherwise exactly one, whose id filter is the list of
distinct stringified ids in first-seen order with the already-cached ones
removed, combined with the option's `match` filter and `select` projection. -/
theorem populateRef_single_dedup_query (reg : Registry) (docs : List Doc)
    (pp : ParsedPopulatePath) (st : PState) (mname : String) (model : ModelLike)
    (hm : pp.modelName = some mname) (hmne : mname ≠ "")
    (hreg : reg mname = some model) :
    ∃ Δ, (populateRef reg docs pp st).2.events = st.events ++ Δ ∧
      Δ.filter isQueryEvent =
        (if ((idsToFetchOf docs pp).filter (fun s => !(cacheHas st mname s))).isEmpty then []
         else [Event.equery mname
            ⟨some ((idsToFetchOf docs pp).filter (fun s => !(cacheHas st mname s))), none,
              pp.options.mtch.getD []⟩
            (parseSelectToProjection pp.options.select)]) := by
  have hmT' : strTruthy (some mname) = true := by simp [strTruthy, hmne]
  simp only [populateRef, hm, Option.getD_some, hmT', Bool.not_true, Bool.false_eq_true,
    if_false, cacheHas]
  cases hempty : (idsToFetchOf docs pp).isEmpty with
  | true =>
    have hnil : idsToFetchOf docs pp = [] := by
      cases h : idsToFetchOf docs pp with
      | nil => rfl
      | cons a l => rw [h] at hempty; exact absurd hempty (by simp)
    simp only [hempty, if_true, hnil]
    exact ⟨[], by simp, by simp⟩
  | false =>
    simp only [hempty, Bool.false_eq_true, if_false]
    cases hU : ((idsToFetchOf docs pp).filter
        (fun s => !(hasKeyS (cacheFor st mname) s))).isEmpty with
    | true =>
      simp only [hU, if_true, insertFetched_nil]
      exact ⟨[], by simp [setCache], rfl⟩
    | false =>
      simp only [hU, Bool.false_eq_true, if_false]
      rw [fetchDocuments_eq, hreg, fdFilter_some_none]
      cases hfind : model.find
          ⟨some ((idsToFetchOf docs pp).filter (fun s => !(hasKeyS (cacheFor st mname) s))),
            none, pp.options.mtch.getD []⟩
          (parseSelectToProjection pp.options.select) with
      | some results =>
        simp only [hfind]
        obtain ⟨Δ, h1, h2⟩ := insertFetched_events mname results
          { setCache st mname (cacheFor st mname) with
              events := (setCache st mname (cacheFor st mname)).events ++
                [Event.equery mname
                  ⟨some ((idsToFetchOf docs pp).filter
                    (fun s => !(hasKeyS (cacheFor st mname) s))), none, pp.options.mtch.getD []⟩
                  (parseSelectToProjection pp.options.select)] }
        refine ⟨Event.equery mname
            ⟨some ((idsToFetchOf docs pp).filter (fun s => !(hasKeyS (cacheFor st mname) s))),
              none, pp.options.mtch.getD []⟩
            (parseSelectToProjection pp.options.select) :: Δ, ?_, ?_⟩
        · rw [h1]
          simp [setCache]
        · simp [isQueryEvent, h2]
      | none =>
        simp only [hfind, insertFetched_nil]
        refine ⟨[Event.equery mname
            ⟨some ((idsToFetchOf docs pp).filter (fun s => !(hasKeyS (cacheFor st mname) s))),
              none, pp.options.mtch.getD []⟩
            (parseSelectToProjection pp.options.select),
            Event.eerror ("Error populating from model \"" ++ mname ++ "\"")], ?_, ?_⟩
        · simp [setCache]
        · simp [isQueryEvent]

/-- C1 witness: two copies of the example document referencing the same id
against the registered Author model and an empty cache: the event delta holds
exactly one query, on the single deduplicated uncached id. -/
theorem populateRef_single_dedup_query_witness :
    ∃ Δ, (populateRef exReg [exDoc, exDoc]
        (parsePopulatePath "authorId" (defaultOpt "authorId") (some exSchema))
        initState).2.events = initState.events ++ Δ ∧
      Δ.filter isQueryEvent =
        (if ((idsToFetchOf [exDoc, exDoc]
              (parsePopulatePath "authorId" (defaultOpt "authorId") (some exSchema))).filter
            (fun s => !(cacheHas initState "Author" s))).isEmpty then []
         else [Event.equery "Author"
            ⟨some ((idsToFetchOf [exDoc, exDoc]
                (parsePopulatePath "authorId" (defaultOpt "authorId") (some exSchema))).filter
              (fun s => !(cacheHas initState "Author" s))), none,
              (parsePopulatePath "authorId" (defaultOpt "authorId")
                (some exSchema)).options.mtch.getD []⟩
            (parseSelectToProjection (parsePopulatePath "authorId" (defaultOpt "authorId")
              (some exSchema)).options.select)]) :=
  populateRef_single_dedup_query exReg [exDoc, exDoc]
    (parsePopulatePath "authorId" (defaultOpt "authorId") (some exSchema)) initState
    "Author" { find := fun _ _ => some [exAuthorRec], schema := none }
    rfl (by decide) rfl

/-- The body of the `groupByForeign` fold, named so the loop invariant can be
stated over it. -/
def gbfStep (ff : String) (g : List (String × List Val)) (fd : Val) :
    List (String × List Val) :=
  match stringifyId (getNestedValue fd ff) with
  | some sv => if sv = "" then g else addToGroup g sv fd
  | none => g

theorem groupByForeign_eq_foldl (fetched : List Val) (ff : String) :
    groupByForeign fetched ff = fetched.foldl (gbfStep ff) [] := rfl

theorem lookupS_append {α : Type} (a b : List (String × α)) (k : String) :
    lookupS (a ++ b) k =
      match lookupS a k with
      | some v => some v
      | none => lookupS b k := by
  induction a with
  | nil => simp [lookupS]
  | cons hd tl ih =>
    obtain ⟨k', v'⟩ := hd
    by_cases h : k' = k
    · simp [lookupS, h]
    · simp [lookupS, h, ih]

theorem getD_lookupS_addToGroup (g : List (String × List Val)) (k v : String) (r : Val) :
    (lookupS (addToGroup g k r) v).getD [] =
      if k = v then (lookupS g v).getD [] ++ [r] else (lookupS g v).getD [] := by
  unfold addToGroup
  cases hg : lookupS g k with
  | some l =>
    by_cases hkv : k = v
    · subst hkv
      simp [lookupS_setKeyS_self, hg]
    · simp [hkv, lookupS_setKeyS_ne g k v _ hkv]
  | none =>
    by_cases hkv : k = v
    · subst hkv
      rw [lookupS_append]
      simp [hg, lookupS]
    · rw [lookupS_append]
      cases hgv : lookupS g v with
      | some l => simp [hgv, hkv]
      | none => simp [hgv, lookupS, hkv]

theorem gbf_loop (ff v : String) (hv : ¬ v = "") (fetched : List Val) :
    ∀ g, (lookupS (fetched.foldl (gbfStep ff) g) v).getD [] =
      (lookupS g v).getD [] ++
        fetched.filter (fun r => stringifyId (getNestedValue r ff) == some v) := by
  induction fetched with
  | nil =>
    intro g
    simp
  | cons r rest ih =>
    intro g
    cases hs : stringifyId (getNestedValue r ff) with
    | none =>
      rw [List.foldl_cons, ih (gbfStep ff g r), List.filter_cons]
      simp only [gbfStep, hs]
      simp
    | some sv =>
      rw [List.foldl_cons, ih (gbfStep ff g r), List.filter_cons]
      simp only [gbfStep, hs]
      by_cases hsv : sv = ""
      · subst hsv
        have hbv : ¬ ("" : String) = v := fun h => hv h.symm
        simp [hbv]
      · simp only [if_neg hsv, getD_lookupS_addToGroup]
        by_cases hsvv : sv = v
        · subst hsvv
          simp [List.append_assoc]
        · simp [hsvv]

theorem groupByForeign_lookup (fetched : List Val) (ff v : String) (hv : ¬ v = "") :
    (lookupS (groupByForeign fetched ff) v).getD [] =
      fetched.filter (fun r => stringifyId (getNestedValue r ff) == some v) := by
  rw [groupByForeign_eq_foldl, gbf_loop ff v hv fetched []]
  simp [lookupS]

theorem fdFilter_none_some (options : PopulateOpt) (qf : Filter) :
    fdFilter none options (some qf) = qf := by
  cases h : options.mtch <;> simp [fdFilter, h]

/-- C5: on a virtual (reverse-join) path whose query returns `fetched`, with
no transform, no per-document limit and `justOne` not forced true, every
document with a non-empty stringified local value is assigned exactly the
fetched records whose stringified foreign value equals it — every matching
record and no other — and documents with a falsy local value are untouched. -/
theorem populateVirtual_groups_matches (reg : Registry) (docs : List Doc)
    (pp : ParsedPopulatePath) (st : PState) (mname ff : String) (model : ModelLike)
    (fetched : List Val)
    (hm : pp.modelName = some mname) (hmne : mname ≠ "")
    (hf : pp.foreignField = some ff) (hffne : ff ≠ "")
    (hreg : reg mname = some model)
    (hfind : model.find ⟨none, some (ff, localValuesOf docs pp), pp.options.mtch.getD []⟩
      (parseSelectToProjection pp.options.select) = some fetched)
    (htr : pp.options.transform = none) (hpl : pp.options.perDocumentLimit = none)
    (hj : ¬ pp.options.justOne = some true)
    (hlv : (localValuesOf docs pp).isEmpty = false) :
    (populateVirtual reg docs pp st).1 =
      .ok (docs.map fun d =>
        match localOf pp d with
        | some lv =>
          if lv = "" then d
          else ⟨setNestedValue d.val pp.path
              (Val.varr (fetched.filter
                (fun r => stringifyId (getNestedValue r ff) == some lv))),
            d.internalPopulated⟩
        | none => d) := by
  have hmT' : strTruthy (some mname) = true := by simp [strTruthy, hmne]
  have hfT' : strTruthy (some ff) = true := by simp [strTruthy, hffne]
  simp only [populateVirtual, hm, hf, Option.getD_some, hmT', hfT', Bool.not_true,
    Bool.or_self, Bool.false_eq_true, if_false, hlv]
  rw [fetchDocuments_eq, hreg]
  simp only [fdFilter_none_some, hfind]
  have hassign : assignOneVirtual pp (groupByForeign fetched ff) =
      fun d =>
        match localOf pp d with
        | some lv =>
          if lv = "" then d
          else ⟨setNestedValue d.val pp.path
              (Val.varr (fetched.filter
                (fun r => stringifyId (getNestedValue r ff) == some lv))),
            d.internalPopulated⟩
        | none => d := by
    funext d
    simp only [assignOneVirtual]
    cases hl : localOf pp d with
    | none => rfl
    | some lv =>
      by_cases hlv0 : lv = ""
      · simp [hlv0]
      · simp only [if_neg hlv0, htr, hpl, groupByForeign_lookup fetched ff lv hlv0,
          if_neg hj]
  rw [hassign]

/-- C5 witness: two Book records with foreign value "A" against one author
document with local value "A": both records, in order, are assigned to the
document's `books` field. -/
theorem populateVirtual_groups_matches_witness :
    (populateVirtual exVReg [exVDoc] (parsePopulatePath "books" exVOpt none) initState).1 =
      .ok [⟨.vobj [("_id", .vstr "A"),
          ("books", .varr [.vobj [("_id", .vnum 1), ("authorId", .vstr "A")],
            .vobj [("_id", .vnum 2), ("authorId", .vstr "A")]])], none⟩] := by
  have h := populateVirtual_groups_matches exVReg [exVDoc]
    (parsePopulatePath "books" exVOpt none) initState "Book" "authorId"
    { find := fun _ _ => some [.vobj [("_id", .vnum 1), ("authorId", .vstr "A")],
        .vobj [("_id", .vnum 2), ("authorId", .vstr "A")]], schema := none }
    [.vobj [("_id", .vnum 1), ("authorId", .vstr "A")],
      .vobj [("_id", .vnum 2), ("authorId", .vstr "A")]]
    rfl (by decide) rfl (by decide) rfl rfl rfl rfl (by decide) rfl
  exact h.trans rfl

/-- The record value `populateRef` assigns to one document, factored out of
`assignOneRef`. -/
def refFinalValue (pp : ParsedPopulatePath) (mc : List (String × Val)) (ids : List Val) : Val :=
  let populatedDocs := ids.foldl (fun acc id =>
    match stringifyId id with
    | some sid =>
      if sid = "" then acc
      else
        match lookupS mc sid with
        | some pd =>
          let pd := match pp.options.transform with
            | some f => if truthy pd then f pd else pd
            | none => pd
          if isNullish pd then acc else acc ++ [pd]
        | none => acc
    | none => acc) []
  if pp.isArray || pp.options.justOne = some false then .varr populatedDocs
  else if pp.options.justOne = some true || !pp.isArray then populatedDocs.headD .vnull
  else .varr populatedDocs

/-- The raw value `populateRef` records for later depopulation. -/
def refTrackVal (isArray : Bool) (ids : List Val) : Val :=
  if ids.length = 1 && !isArray then ids.headD .vundef else .varr ids

theorem assignOneRef_of_refIds (pp : ParsedPopulatePath) (mc : List (String × Val))
    (d : Doc) (ids : List Val) (pm : List (String × Val))
    (hr : refIdsOf pp d = some ids) (hp : d.internalPopulated = some pm) :
    assignOneRef pp mc d =
      ⟨setNestedValue d.val pp.path (refFinalValue pp mc ids),
        some (setKeyS pm pp.path (refTrackVal pp.isArray ids))⟩ := by
  simp only [assignOneRef, hr, hp, refFinalValue, refTrackVal]

theorem parsePopulatePath_path (path : String) (options : PopulateOpt)
    (schema : Option SchemaLike) :
    (parsePopulatePath path options schema).path = path := by
  simp only [parsePopulatePath]
  repeat' split
  all_goals rfl

theorem getNestedValue_single (fs : List (String × Val)) (p : String) (rawv : Val)
    (hdot : jsSplit (fun c => c = '.') p = [p])
    (hnodoc : hasKeyS fs "_doc" = false)
    (hval : lookupS fs p = some rawv) :
    getNestedValue (.vobj fs) p = rawv := by
  simp only [getNestedValue, hdot]
  simp [getNestedParts, isNullish, hnodoc, getField, hval]

theorem setNestedValue_single (fs : List (String × Val)) (p : String) (value : Val)
    (hdot : jsSplit (fun c => c = '.') p = [p]) (hpne : ¬ p = "")
    (hnodoc : hasKeyS fs "_doc" = false) :
    setNestedValue (.vobj fs) p value = .vobj (setKeyS fs p value) := by
  simp only [setNestedValue, hnodoc, Bool.false_eq_true, if_false, hdot]
  simp [setNestedParts, hpne]

theorem depopulate_set_single (fs pm : List (String × Val)) (p : String) (fv rawv : Val)
    (hdot : jsSplit (fun c => c = '.') p = [p]) (hpne : ¬ p = "") (hpdoc : ¬ p = "_doc")
    (hnodoc : hasKeyS fs "_doc" = false) (hpm : lookupS pm p = none)
    (hval : lookupS fs p = some rawv) :
    depopulate [⟨setNestedValue (.vobj fs) p fv, some (setKeyS pm p rawv)⟩] (some p) =
      [⟨.vobj fs, some pm⟩] := by
  rw [setNestedValue_single fs p fv hdot hpne hnodoc]
  have hnodoc' : hasKeyS (setKeyS fs p fv) "_doc" = false := by
    rw [hasKeyS_setKeyS_ne fs p "_doc" fv hpdoc]
    exact hnodoc
  simp only [depopulate, List.map, lookupS_setKeyS_self]
  rw [setNestedValue_single (setKeyS fs p fv) p rawv hdot hpne hnodoc']
  rw [setKeyS_setKeyS_cancel fs p fv rawv hval, eraseKeyS_setKeyS_of_none pm p rawv hpm]

theorem depopulate_assignOneRef (pp : ParsedPopulatePath) (mc fs pm : List (String × Val))
    (rawv : Val)
    (hdot : jsSplit (fun c => c = '.') pp.path = [pp.path])
    (hpne : ¬ pp.path = "") (hpdoc : ¬ pp.path = "_doc")
    (hnodoc : hasKeyS fs "_doc" = false)
    (hpm : lookupS pm pp.path = none)
    (hval : lookupS fs pp.path = some rawv)
    (hnn : isNullish rawv = false)
    (hshape : pp.isArray = true → ∃ xs, rawv = Val.varr xs) :
    depopulate [assignOneRef pp mc ⟨.vobj fs, some pm⟩] (some pp.path) =
      [⟨.vobj fs, some pm⟩] := by
  have hget : getNestedValue (.vobj fs) pp.path = rawv :=
    getNestedValue_single fs pp.path rawv hdot hnodoc hval
  have hrefids : refIdsOf pp ⟨.vobj fs, some pm⟩ =
      some (if pp.isArray then toArr rawv else [rawv]) := by
    simp [refIdsOf, hget, hnn]
  rw [assignOneRef_of_refIds pp mc ⟨.vobj fs, some pm⟩ _ pm hrefids rfl]
  have htrack : refTrackVal pp.isArray (if pp.isArray then toArr rawv else [rawv]) = rawv := by
    cases harr : pp.isArray with
    | false => simp [refTrackVal]
    | true =>
      obtain ⟨xs, hxs⟩ := hshape harr
      simp [refTrackVal, hxs, toArr]
  rw [htrack]
  exact depopulate_set_single fs pm pp.path _ rawv hdot hpne hpdoc hnodoc hpm hval

theorem populateRef_ok_shape (reg : Registry) (docs docs' : List Doc)
    (pp : ParsedPopulatePath) (st st' : PState)
    (h : populateRef reg docs pp st = (.ok docs', st')) :
    docs' = docs ∨ ∃ mc, docs' = docs.map (assignOneRef pp mc) := by
  simp only [populateRef] at h
  split at h
  · left
    injection h with h1 h2
    injection h1 with h1
    exact h1.symm
  · split at h
    · left
      injection h with h1 h2
      injection h1 with h1
      exact h1.symm
    · split at h
      · exact absurd h (by simp)
      · right
        injection h with h1 h2
        injection h1 with h1
        exact ⟨_, h1.symm⟩

/-- C3: for a document carrying a tracking map without an entry for the path,
whose object holds the path as a plain present field with a non-nullish raw
value (an array value when the path parses as an array reference), a
successful `populate` of that single direct-reference path followed by
`depopulate` of the same path restores the document exactly: the field gets
its original raw value back and the tracking entry is removed. -/
theorem populate_depopulate_roundtrip (reg : Registry) (fuel : Nat)
    (schema : Option SchemaLike) (fs pm : List (String × Val)) (p : String) (rawv : Val)
    (docs' : List Doc) (st' : PState)
    (hsplitw : (jsSplit Char.isWhitespace p).filter (fun t => !(t = "")) = [p])
    (hdot : jsSplit (fun c => c = '.') p = [p])
    (hpne : ¬ p = "") (hpdoc : ¬ p = "_doc")
    (hnodoc : hasKeyS fs "_doc" = false)
    (hpm : lookupS pm p = none)
    (hval : lookupS fs p = some rawv)
    (hnn : isNullish rawv = false)
    (hm : strTruthy (parsePopulatePath p (defaultOpt p) schema).modelName = true)
    (hv : (parsePopulatePath p (defaultOpt p) schema).isVirtual = false)
    (hshape : (parsePopulatePath p (defaultOpt p) schema).isArray = true →
      ∃ xs, rawv = Val.varr xs)
    (hrun : populate reg (fuel + 1) [⟨.vobj fs, some pm⟩] (.str p) schema =
      (.ok docs', st')) :
    depopulate docs' (some p) = [⟨.vobj fs, some pm⟩] := by
  have hnorm : normalizePopulateOptions (.str p) = [defaultOpt p] := by
    simp [normalizePopulateOptions, hsplitw]
  have hP : (defaultOpt p).path = p := rfl
  rw [populate_single_direct_run reg fuel [⟨.vobj fs, some pm⟩] (.str p) (defaultOpt p)
    schema hnorm (by simp) (fun h => Option.noConfusion h) rfl hm hv] at hrun
  rw [hP] at hrun
  cases hres : populateRef reg [⟨.vobj fs, some pm⟩]
      (parsePopulatePath p (defaultOpt p) schema) ⟨[], [p], []⟩ with
  | mk res stR =>
    rw [hres] at hrun
    cases res with
    | error e => simp at hrun
    | ok ds =>
      simp only [Prod.mk.injEq, Except.ok.injEq] at hrun
      obtain ⟨hds, -⟩ := hrun
      subst hds
      rcases populateRef_ok_shape reg [⟨.vobj fs, some pm⟩] ds
          (parsePopulatePath p (defaultOpt p) schema) ⟨[], [p], []⟩ stR hres with
        hsame | ⟨mc, hmap⟩
      · rw [hsame]
        simp [depopulate, hpm]
      · rw [hmap]
        simp only [List.map]
        have hppath : (parsePopulatePath p (defaultOpt p) schema).path = p :=
          parsePopulatePath_path p (defaultOpt p) schema
        have hdr := depopulate_assignOneRef (parsePopulatePath p (defaultOpt p) schema) mc
          fs pm rawv (by rw [hppath]; exact hdot) (by rw [hppath]; exact hpne)
          (by rw [hppath]; exact hpdoc) hnodoc
          (by rw [hppath]; exact hpm) (by rw [hppath]; exact hval) hnn hshape
        rw [hppath] at hdr
        exact hdr

/-- C3 witness: populating `authorId` on the example document against the
registered Author model and then depopulating the same path returns the
original document with its raw scalar id and empty tracking map. -/
theorem populate_depopulate_roundtrip_witness :
    depopulate [⟨.vobj [("_id", .vnum 1),
        ("authorId", .vobj [("_id", .vstr "A"), ("name", .vstr "Ann")])],
      some [("authorId", .vstr "A")]⟩] (some "authorId") =
      [⟨.vobj [("_id", .vnum 1), ("authorId", .vstr "A")], some []⟩] :=
  populate_depopulate_roundtrip exReg 4 (some exSchema)
    [("_id", .vnum 1), ("authorId", .vstr "A")] [] "authorId" (.vstr "A")
    [⟨.vobj [("_id", .vnum 1),
        ("authorId", .vobj [("_id", .vstr "A"), ("name", .vstr "Ann")])],
      some [("authorId", .vstr "A")]⟩]
    ⟨[("Author", [("A", .vobj [("_id", .vstr "A"), ("name", .vstr "Ann")])])], [],
      [.equery "Author" ⟨some ["A"], none, []⟩ none, .einsert "Author" "A"]⟩
    rfl rfl (by decide) (by decide) rfl rfl rfl rfl rfl rfl
    (fun h => absurd h (by decide)) rfl

end Pop
